import Mathlib

/-!
# Verification of the rust-tui-daw audio engine

A shallow embedding, in Lean 4, of the parts of the `rust-tui-daw` engine
(src/synth.rs, src/sequencer.rs, src/drums.rs, src/effects.rs, src/save.rs,
src/app.rs) that the specification's testable claims are about, together with
theorems settling those claims.

Modelling conventions:
* Rust `f32` values are modelled by `Fv`, rationals extended with the IEEE-754
  special values `+inf`, `-inf` and `NaN`.  Finite arithmetic is exact rational
  arithmetic (rounding error is not modelled); the special-value propagation
  rules (`x/0`, `0/0`, arithmetic and comparisons with `inf`/`NaN`) follow
  IEEE-754, which is what the envelope code relies on for its zero-duration
  "guard".  Our rationals have no negative zero; every division by zero in the
  embedded code divides by a literal `0.0` (positive zero), so this is faithful.
* Where only plain finite arithmetic occurs (clocks, step grids, effect maths)
  we use `ℚ` and `ℕ` directly.  Rust machine integers (`u32`, `u64`, `usize`,
  `u8`) are `ℕ` with explicit `% 2^32` (`u32wrap`) where wrapping matters.
* Transcendental `f32` functions (`sin`, `cos`, `tanh`, `powf`, the constant
  `PI`) are taken as function parameters of the definitions that use them:
  no claim inspects their values, only the surrounding control flow.
* `f32::round` rounds half away from zero (Rust semantics); `as u64` /
  `as usize` on a non-negative float truncates (saturating at 0 for negative
  values), which `Int.toNat ∘ Int.floor` reproduces.
-/

namespace Daw

/-- Rust `f32::round`: round to nearest integer, halfway cases away from zero. -/
def roundHalfAway (q : ℚ) : ℤ :=
  if q < 0 then -⌊-q + 1/2⌋ else ⌊q + 1/2⌋

/-- Rust `f32::clamp(lo, hi)` on exact rationals (for `lo ≤ hi`, NaN-free). -/
def qclamp (x lo hi : ℚ) : ℚ := min (max x lo) hi

/-- Rust `i32::clamp` on integers. -/
def iclamp (x lo hi : ℤ) : ℤ := min (max x lo) hi

/-- Rust `usize::clamp` on naturals. -/
def nclamp (x lo hi : ℕ) : ℕ := min (max x lo) hi

/-- Rust `Vec::resize(n, pad)`: truncate to `n` or extend with `pad`. -/
def resizeL {α : Type} (l : List α) (n : ℕ) (pad : α) : List α :=
  l.take n ++ List.replicate (n - l.length) pad

/-- Reduction modulo 2^32, the wrap-around of Rust `u32` arithmetic. -/
def u32wrap (n : ℕ) : ℕ := n % 4294967296

-- ── Extended rationals: the value domain of embedded `f32` code ───────────────

/-- Model of an `f32` value: an exact rational, `+inf`, `-inf`, or `NaN`. -/
inductive Fv where
  | fin : ℚ → Fv
  | pinf : Fv
  | ninf : Fv
  | nan : Fv
deriving DecidableEq

namespace Fv

/-- IEEE-754 negation. -/
def neg : Fv → Fv
  | fin a => fin (-a)
  | pinf => ninf
  | ninf => pinf
  | nan => nan

/-- IEEE-754 addition (exact on finite operands). -/
def add : Fv → Fv → Fv
  | nan, _ => nan
  | _, nan => nan
  | fin a, fin b => fin (a + b)
  | fin _, pinf => pinf
  | fin _, ninf => ninf
  | pinf, fin _ => pinf
  | ninf, fin _ => ninf
  | pinf, pinf => pinf
  | ninf, ninf => ninf
  | pinf, ninf => nan
  | ninf, pinf => nan

/-- IEEE-754 subtraction, `a - b = a + (-b)`. -/
def sub (a b : Fv) : Fv := a.add b.neg

/-- IEEE-754 multiplication (exact on finite operands); `0 * inf = NaN`. -/
def mul : Fv → Fv → Fv
  | nan, _ => nan
  | _, nan => nan
  | fin a, fin b => fin (a * b)
  | fin a, pinf => if a = 0 then nan else if 0 < a then pinf else ninf
  | fin a, ninf => if a = 0 then nan else if 0 < a then ninf else pinf
  | pinf, fin b => if b = 0 then nan else if 0 < b then pinf else ninf
  | ninf, fin b => if b = 0 then nan else if 0 < b then ninf else pinf
  | pinf, pinf => pinf
  | ninf, ninf => pinf
  | pinf, ninf => ninf
  | ninf, pinf => ninf

/-- IEEE-754 division; `x/0` is a signed infinity for `x ≠ 0` and `0/0 = NaN`
(the divisor `0` arising in the embedded code is always a positive zero). -/
def div : Fv → Fv → Fv
  | nan, _ => nan
  | _, nan => nan
  | fin a, fin b =>
      if b = 0 then (if a = 0 then nan else if 0 < a then pinf else ninf)
      else fin (a / b)
  | fin _, pinf => fin 0
  | fin _, ninf => fin 0
  | pinf, fin b => if 0 ≤ b then pinf else ninf
  | ninf, fin b => if 0 ≤ b then ninf else pinf
  | pinf, pinf => nan
  | pinf, ninf => nan
  | ninf, pinf => nan
  | ninf, ninf => nan

/-- IEEE-754 `<=`: any comparison with `NaN` is false. -/
def le : Fv → Fv → Bool
  | nan, _ => false
  | _, nan => false
  | fin a, fin b => decide (a ≤ b)
  | ninf, _ => true
  | _, pinf => true
  | pinf, _ => false
  | _, ninf => false

/-- IEEE-754 `<`: any comparison with `NaN` is false. -/
def lt : Fv → Fv → Bool
  | nan, _ => false
  | _, nan => false
  | fin a, fin b => decide (a < b)
  | pinf, _ => false
  | _, pinf => true
  | _, ninf => false
  | ninf, _ => true

end Fv

-- ── src/synth.rs: waveforms, ADSR envelope, melodic voice ────────────────────

/-- Rust `WaveType` (src/synth.rs). -/
inductive WaveType where
  | Sine | Square | Sawtooth | Triangle
deriving DecidableEq

/-- Rust `WaveType::next` (src/synth.rs). -/
def WaveType.next : WaveType → WaveType
  | .Sine => .Square
  | .Square => .Sawtooth
  | .Sawtooth => .Triangle
  | .Triangle => .Sine

/-- Rust `EnvelopeStage` (src/synth.rs). -/
inductive EnvelopeStage where
  | Attack | Decay | Sustain | Release | Off
deriving DecidableEq

/-- Rust `Voice` (src/synth.rs): one envelope-shaped oscillator bound to a note. -/
structure Voice where
  frequency : Fv
  phase : Fv
  stage : EnvelopeStage
  level : Fv
  release_level : Fv
deriving DecidableEq

/-- Rust `note_to_freq` (src/synth.rs): `440.0 * 2f32.powf((note - 69.0)/12.0)`.
The transcendental `2f32.powf` is the parameter `pow2`. -/
def note_to_freq (pow2 : Fv → Fv) (note : ℕ) : Fv :=
  (Fv.fin 440).mul (pow2 (((Fv.fin note).sub (Fv.fin 69)).div (Fv.fin 12)))

/-- Rust `Voice::new` (src/synth.rs). -/
def Voice.new (pow2 : Fv → Fv) (note : ℕ) : Voice :=
  { frequency := note_to_freq pow2 note, phase := Fv.fin 0,
    stage := .Attack, level := Fv.fin 0, release_level := Fv.fin 0 }

/-- Rust `Voice::release` (src/synth.rs): snapshot the level and enter Release. -/
def Voice.release (v : Voice) : Voice :=
  if v.stage ≠ EnvelopeStage.Off then
    { v with release_level := v.level, stage := .Release }
  else v

/-- Rust `Voice::is_finished` (src/synth.rs). -/
def Voice.is_finished (v : Voice) : Bool :=
  v.stage = EnvelopeStage.Off

/-- The envelope-mutation part of `Voice::next_sample` (src/synth.rs lines
62-77): one per-sample ADSR transition.  `dt = 1.0 / sr`; stage-change
comparisons are IEEE comparisons on the updated level. -/
def Voice.envAdvance (sr attack decay sustain release : Fv) (v : Voice) : Voice :=
  let dt := (Fv.fin 1).div sr
  match v.stage with
  | .Attack =>
      let l := v.level.add (dt.div attack)
      if (Fv.fin 1).le l then { v with level := Fv.fin 1, stage := .Decay }
      else { v with level := l }
  | .Decay =>
      let l := v.level.sub ((dt.mul ((Fv.fin 1).sub sustain)).div decay)
      if l.le sustain then { v with level := sustain, stage := .Sustain }
      else { v with level := l }
  | .Sustain => { v with level := sustain }
  | .Release =>
      let l := v.level.sub ((dt.mul v.release_level).div release)
      if l.le (Fv.fin 0) then { v with level := Fv.fin 0, stage := .Off }
      else { v with level := l }
  | .Off => v

/-- Rust `Voice::next_sample` (src/synth.rs lines 59-91).  Returns the updated
voice and its output sample.  In the Off stage it returns 0 immediately and
changes nothing.  Otherwise the envelope advances, the waveform is read at the
current phase, the phase accumulator advances by `frequency / sr` (wrapping at
1), and the sample is scaled by the updated level.  `sinf` models the
transcendental `x ↦ (x * 2π).sin()` applied to the raw phase. -/
def Voice.next_sample (sinf : Fv → Fv) (wave : WaveType)
    (sr attack decay sustain release : Fv) (v : Voice) : Voice × Fv :=
  if v.stage = EnvelopeStage.Off then (v, Fv.fin 0)
  else
    let v1 := v.envAdvance sr attack decay sustain release
    let sample : Fv :=
      match wave with
      | .Sine => sinf v.phase
      | .Square => if (Fv.fin 0).le (sinf v.phase) then Fv.fin 1 else Fv.fin (-1)
      | .Sawtooth => ((Fv.fin 2).mul v.phase).sub (Fv.fin 1)
      | .Triangle =>
          if v.phase.lt (Fv.fin (1/2)) then ((Fv.fin 4).mul v.phase).sub (Fv.fin 1)
          else (Fv.fin 3).sub ((Fv.fin 4).mul v.phase)
    let p := v.phase.add (v.frequency.div sr)
    let p := if (Fv.fin 1).le p then p.sub (Fv.fin 1) else p
    ({ v1 with phase := p }, sample.mul v1.level)

/-- Just the state transition of `Voice::next_sample`. -/
def Voice.step (sinf : Fv → Fv) (wave : WaveType)
    (sr attack decay sustain release : Fv) (v : Voice) : Voice :=
  (v.next_sample sinf wave sr attack decay sustain release).1

-- ── src/synth.rs: the per-note voice bank of `Synth` ─────────────────────────

/-- A melodic voice bank: the `HashMap<u8, Voice>` of `Synth`, as an
association list with at most one entry per note. -/
def VoiceBank : Type := List (ℕ × Voice)

/-- Rust `HashMap::insert`: replace any entry for the note (`Synth::note_on`,
src/synth.rs line 192 inserts a fresh voice, replacing a held one). -/
def VoiceBank.note_on (pow2 : Fv → Fv) (bank : VoiceBank) (note : ℕ) : VoiceBank :=
  bank.filter (fun p => !(p.1 == note)) ++ [(note, Voice.new pow2 note)]

/-- Rust `Synth::note_off` (src/synth.rs line 195): release the note's voice if
present, otherwise a no-op. -/
def VoiceBank.note_off (bank : VoiceBank) (note : ℕ) : VoiceBank :=
  bank.map (fun p => if p.1 == note then (p.1, p.2.release) else p)

/-- The melodic-bus voice pass of `Synth::generate_sample` (src/synth.rs lines
241-243): every voice renders one sample into the mix, then finished (Off)
voices are pruned from the bank.  Returns the pruned bank and the raw mix. -/
def VoiceBank.render (sinf : Fv → Fv) (wave : WaveType)
    (sr attack decay sustain release : Fv) (bank : VoiceBank) : VoiceBank × Fv :=
  let stepped := bank.map (fun p =>
    (p.1, p.2.next_sample sinf wave sr attack decay sustain release))
  let mix := stepped.foldl (fun acc p => acc.add p.2.2) (Fv.fin 0)
  ((stepped.map (fun p => (p.1, p.2.1))).filter (fun p => !p.2.is_finished), mix)

-- ── src/sequencer.rs: melodic step sequencer ─────────────────────────────────

/-- Rust `StepEvent` (src/sequencer.rs). -/
structure StepEvent where
  note_off : Option ℕ
  note_on : Option ℕ
deriving DecidableEq

/-- Rust `Sequencer` (src/sequencer.rs).  `sample_rate` is exact (44100 in the
program); steps hold optional MIDI notes. -/
structure Sequencer where
  steps : List (Option ℕ)
  num_steps : ℕ
  current_step : ℕ
  playing : Bool
  sample_rate : ℚ
deriving DecidableEq

/-- Rust `Sequencer::new` (src/sequencer.rs). -/
def Sequencer.new (sample_rate : ℚ) : Sequencer :=
  { steps := List.replicate 16 none, num_steps := 16, current_step := 0,
    playing := false, sample_rate }

/-- Rust `Sequencer::samples_per_step` (src/sequencer.rs line 31):
`((sample_rate * 60.0) / (bpm * 4.0)).round() as u64`.  The f32 arithmetic is
exact at the spec's inputs (all intermediates are representable); `round`
rounds half away from zero and the `u64` cast truncates. -/
def Sequencer.samples_per_step (s : Sequencer) (bpm : ℚ) : ℕ :=
  (roundHalfAway ((s.sample_rate * 60) / (bpm * 4))).toNat

/-- Rust `Sequencer::tick` (src/sequencer.rs lines 37-55): advance `current_step`
from the shared clock; on a step boundary emit the previous step's note-off
and the new step's note-on. -/
def Sequencer.tick (s : Sequencer) (bpm : ℚ) (clock : ℕ) :
    Sequencer × Option StepEvent :=
  if !s.playing then (s, none)
  else
    let sps := max (s.samples_per_step bpm) 1
    let step_idx := (clock / sps) % s.num_steps
    let phase_in := clock % sps
    let s' := { s with current_step := step_idx }
    if phase_in = 0 then
      let prev := if step_idx = 0 then s.num_steps - 1 else step_idx - 1
      (s', some { note_off := s.steps.getD prev none,
                  note_on := s.steps.getD step_idx none })
    else (s', none)

/-- Rust `Sequencer::toggle_play` (src/sequencer.rs lines 58-65). -/
def Sequencer.toggle_play (s : Sequencer) : Sequencer × Option ℕ :=
  let s' := { s with playing := !s.playing }
  (s', if s'.playing then none else (s.steps.get? s.current_step).join)

/-- Rust `Sequencer::stop` (src/sequencer.rs lines 68-73). -/
def Sequencer.stop (s : Sequencer) : Sequencer × Option ℕ :=
  let note := if s.playing then (s.steps.get? s.current_step).join else none
  ({ s with playing := false, current_step := 0 }, note)

/-- Rust `Sequencer::cycle_num_steps` (src/sequencer.rs lines 75-80):
8 → 16 → 24 → 32 → 8, resizing the step array and resetting an
out-of-range cursor. -/
def Sequencer.cycle_num_steps (s : Sequencer) : Sequencer :=
  let next : ℕ :=
    match s.num_steps with
    | 8 => 16
    | 16 => 24
    | 24 => 32
    | _ => 8
  { s with
    num_steps := next
    steps := resizeL s.steps next none
    current_step := if s.current_step ≥ next then 0 else s.current_step }

/-- Rust `Sequencer::set_step` (src/sequencer.rs lines 82-84). -/
def Sequencer.set_step (s : Sequencer) (step note : ℕ) : Sequencer :=
  if step < s.steps.length then { s with steps := s.steps.set step (some note) }
  else s

/-- Rust `Sequencer::clear_step` (src/sequencer.rs lines 86-88). -/
def Sequencer.clear_step (s : Sequencer) (step : ℕ) : Sequencer :=
  if step < s.steps.length then { s with steps := s.steps.set step none }
  else s

/-- The sequencer part of `App::load` (src/app.rs lines 924-934): clamp the
persisted step count to 1..=32, install the persisted steps and resize.  The
cursor `current_step` is not touched by this path. -/
def Sequencer.applyLoad (s : Sequencer) (num_steps : ℕ)
    (steps : List (Option ℕ)) : Sequencer :=
  let n1 := nclamp num_steps 1 32
  { s with num_steps := n1, steps := resizeL steps n1 none }

-- ── src/drums.rs: drum kinds, voices, tracks, machine ────────────────────────

/-- Rust `DrumKind` (src/drums.rs). -/
inductive DrumKind where
  | Kick | Snare | ClosedHat | OpenHat | Clap | LowTom | MidTom | HighTom
deriving DecidableEq

/-- Rust `DrumKind::ALL` (src/drums.rs). -/
def DrumKind.ALL : List DrumKind :=
  [.Kick, .Snare, .ClosedHat, .OpenHat, .Clap, .LowTom, .MidTom, .HighTom]

/-- Rust `DrumKind::duration` (src/drums.rs lines 44-55): maximum voice lifetime in
seconds (the f32 literals are exact decimals here, modelled as rationals). -/
def DrumKind.duration : DrumKind → ℚ
  | .Kick => 1/2
  | .Snare => 1/5
  | .ClosedHat => 6/100
  | .OpenHat => 38/100
  | .Clap => 22/100
  | .LowTom => 62/100
  | .MidTom => 42/100
  | .HighTom => 3/10

/-- One pass of the `xorshift` PRNG on a `u32` state (src/drums.rs lines
62-67 and the inlined copy in `fire_step`):
`s ^= s << 13; s ^= s >> 17; s ^= s << 5`. -/
def xorshiftStep (s : ℕ) : ℕ :=
  let s1 := u32wrap (Nat.xor s (u32wrap (s <<< 13)))
  let s2 := Nat.xor s1 (s1 >>> 17)
  u32wrap (Nat.xor s2 (u32wrap (s2 <<< 5)))

/-- The `seed` advance before each trigger (src/drums.rs line 330):
`seed.wrapping_mul(1_664_525).wrapping_add(1_013_904_223)`. -/
def lcgStep (s : ℕ) : ℕ := u32wrap (s * 1664525 + 1013904223)

/-- Rust `DrumVoice` (src/drums.rs): one triggered drum hit.  The per-sample
synthesis output (`next_sample` and the per-kind synthesisers, which use
`exp`/`sin`) is pure audio rendering that no claim inspects; the state
recorded here is what triggering and voice-pool management read. -/
structure DrumVoice where
  kind : DrumKind
  sample_pos : ℕ
  dur_samples : ℕ
  phase : ℚ
  noise : ℕ
  sample_rate : ℚ
  volume : ℚ
deriving DecidableEq

/-- Rust `DrumVoice::new` (src/drums.rs lines 87-97):
`dur_samples = (kind.duration() * sample_rate).ceil() as u64`; the xorshift
state is `seed | 1` so it is never zero. -/
def DrumVoice.new (kind : DrumKind) (sample_rate : ℚ) (seed : ℕ) (volume : ℚ) :
    DrumVoice :=
  { kind, sample_pos := 0, dur_samples := (⌈kind.duration * sample_rate⌉).toNat,
    phase := 0, noise := Nat.lor seed 1, sample_rate, volume }

/-- Rust `DrumVoice::is_finished` (src/drums.rs lines 100-102). -/
def DrumVoice.is_finished (v : DrumVoice) : Bool :=
  v.dur_samples ≤ v.sample_pos

/-- Rust `DrumTrack` (src/drums.rs): one row of the drum machine.  Step values are
per-step trigger probabilities 0-100 (`u8`).  The per-track `fx` insert chain
(a list of boxed `dyn AudioEffect`, unused dead code) is not modelled. -/
structure DrumTrack where
  kind : DrumKind
  steps : List ℕ
  muted : Bool
  volume : ℚ
deriving DecidableEq

/-- Rust `DrumTrack::new` (src/drums.rs lines 206-214). -/
def DrumTrack.new (kind : DrumKind) (num_steps : ℕ) : DrumTrack :=
  { kind, steps := List.replicate num_steps 0, muted := false, volume := 85/100 }

/-- Rust `DrumMachine` (src/drums.rs).  The master `fx` chain is empty in the
program (passthrough) and is not modelled. -/
structure DrumMachine where
  tracks : List DrumTrack
  num_steps : ℕ
  current_step : ℕ
  playing : Bool
  swing : ℚ
  sample_rate : ℚ
  voices : List DrumVoice
  seed : ℕ
  prob_seed : ℕ
  kick_triggered : Bool
deriving DecidableEq

/-- Rust `DrumMachine::new` (src/drums.rs lines 247-263). -/
def DrumMachine.new (sample_rate : ℚ) : DrumMachine :=
  { tracks := DrumKind.ALL.map (fun k => DrumTrack.new k 16)
    num_steps := 16
    current_step := 0
    playing := false
    swing := 0
    sample_rate
    voices := []
    seed := 0xBEEFCAFE
    prob_seed := 0xDEADBEEF
    kick_triggered := false }

/-- Rust `DrumMachine::samples_per_step` (src/drums.rs lines 265-267): the same
formula as `Sequencer::samples_per_step`, sharing the master clock grid. -/
def DrumMachine.samples_per_step (dm : DrumMachine) (bpm : ℚ) : ℕ :=
  (roundHalfAway ((dm.sample_rate * 60) / (bpm * 4))).toNat

/-- The hi-hat choke condition of `DrumMachine::fire_step` (src/drums.rs lines
306-310): some unmuted closed-hat track has a non-zero probability at the
current step.  Decided purely by the pattern content. -/
def DrumMachine.closedFires (dm : DrumMachine) : Bool :=
  dm.tracks.any (fun t =>
    t.kind == DrumKind.ClosedHat && !t.muted
      && decide (0 < t.steps.getD dm.current_step 0))

/-- The per-track body of the `fire_step` trigger loop (src/drums.rs lines
315-335), threading (voice pool, trigger seed, probability seed,
kick_triggered) through one track: skip muted tracks and zero-probability
steps; for prob < 100 roll the dedicated probability PRNG and skip when
`roll ≥ prob`; otherwise advance the trigger seed and spawn a fresh
`DrumVoice` (setting `kick_triggered` for the kick). -/
def fireTrackStep (cur : ℕ) (sr : ℚ) (acc : List DrumVoice × ℕ × ℕ × Bool)
    (t : DrumTrack) : List DrumVoice × ℕ × ℕ × Bool :=
  let (vs, seed, pseed, kick) := acc
  if t.muted then acc
  else
    let prob := t.steps.getD cur 0
    if prob = 0 then acc
    else
      let rolled : Bool × ℕ :=
        if prob < 100 then
          let ps := xorshiftStep pseed
          (decide (ps % 100 < prob), ps)
        else (true, pseed)
      if rolled.1 then
        let sd := lcgStep seed
        (vs ++ [DrumVoice.new t.kind sr sd t.volume], sd,
         rolled.2, kick || (t.kind == DrumKind.Kick))
      else (vs, seed, rolled.2, kick)

/-- Rust `DrumMachine::fire_step` (src/drums.rs lines 304-336).  First the hi-hat
choke removes every open-hat voice when `closedFires`; then the trigger loop
runs over all tracks. -/
def DrumMachine.fire_step (dm : DrumMachine) : DrumMachine :=
  let voices0 :=
    if dm.closedFires then dm.voices.filter (fun v => !(v.kind == DrumKind.OpenHat))
    else dm.voices
  let st := dm.tracks.foldl (fireTrackStep dm.current_step dm.sample_rate)
    (voices0, dm.seed, dm.prob_seed, dm.kick_triggered)
  { dm with
    voices := st.1
    seed := st.2.1
    prob_seed := st.2.2.1
    kick_triggered := st.2.2.2 }

/-- The step-firing condition of `DrumMachine::generate_sample` (src/drums.rs
lines 272-283): the machine is playing and the clock's phase inside the
current step equals the swing offset (odd steps are delayed by
`(swing * sps).round()` samples, even steps fire on the boundary). -/
def DrumMachine.firesAt (dm : DrumMachine) (bpm : ℚ) (clock : ℕ) : Bool :=
  let sps := max (dm.samples_per_step bpm) 1
  let step_idx := (clock / sps) % dm.num_steps
  let phase_in := clock % sps
  let swing_offset : ℕ :=
    if step_idx % 2 = 1 then (roundHalfAway (dm.swing * (sps : ℚ))).toNat else 0
  dm.playing && decide (phase_in = swing_offset)

/-- The sequencing state advance of `DrumMachine::generate_sample`
(src/drums.rs lines 271-289): update `current_step` from the shared clock and
run `fire_step` exactly when `firesAt` holds.  The subsequent voice mixdown
and per-sample rendering (lines 291-301, transcendental DSP) produce the audio
output and are not inspected by any claim. -/
def DrumMachine.stepAdvance (dm : DrumMachine) (bpm : ℚ) (clock : ℕ) : DrumMachine :=
  let sps := max (dm.samples_per_step bpm) 1
  let step_idx := (clock / sps) % dm.num_steps
  if dm.firesAt bpm clock then
    DrumMachine.fire_step { dm with current_step := step_idx }
  else
    { dm with current_step := step_idx }

/-- The bucket-accumulator loop of `DrumMachine::euclidean_fill` (src/drums.rs
lines 431-436), built left to right over the remaining step count: `bucket +=
k`; when `bucket ≥ n`, subtract `n` and mark the step with probability 100. -/
def euclidGo (k n : ℕ) : ℕ → ℕ → List ℕ
  | 0, _ => []
  | i + 1, bucket =>
      let b := bucket + k
      if n ≤ b then 100 :: euclidGo k n i (b - n) else 0 :: euclidGo k n i b

/-- The pattern written by `DrumMachine::euclidean_fill` over `n` steps. -/
def euclidSteps (k n : ℕ) : List ℕ := euclidGo k n n 0

/-- Rust `DrumMachine::euclidean_fill` (src/drums.rs lines 426-437): clamp `k` to
the step count, then overwrite the track's pattern with the bucket-accumulator
pattern.  Out-of-range track indices are a no-op. -/
def DrumMachine.euclidean_fill (dm : DrumMachine) (track k : ℕ) : DrumMachine :=
  let n := dm.num_steps
  match dm.tracks.get? track with
  | none => dm
  | some t =>
      { dm with tracks := dm.tracks.set track { t with steps := euclidSteps (min k n) n } }

-- ── src/effects.rs: DSP effects ──────────────────────────────────────────────

/-- Rust `CombFilter` (src/effects.rs lines 57-83), one Freeverb comb. -/
structure CombFilter where
  buf : List ℚ
  pos : ℕ
  feedback : ℚ
  damp_store : ℚ
  damp1 : ℚ
  damp2 : ℚ
deriving DecidableEq

/-- Rust `CombFilter::process` (src/effects.rs lines 73-79). -/
def CombFilter.process (c : CombFilter) (input : ℚ) : CombFilter × ℚ :=
  let output := c.buf.getD c.pos 0
  let ds := output * c.damp2 + c.damp_store * c.damp1
  ({ c with
     buf := c.buf.set c.pos (input + ds * c.feedback)
     damp_store := ds
     pos := (c.pos + 1) % c.buf.length }, output)

/-- Rust `AllpassFilter` (src/effects.rs lines 85-103). -/
structure AllpassFilter where
  buf : List ℚ
  pos : ℕ
deriving DecidableEq

/-- Rust `AllpassFilter::process` (src/effects.rs lines 96-102). -/
def AllpassFilter.process (a : AllpassFilter) (input : ℚ) : AllpassFilter × ℚ :=
  let bufout := a.buf.getD a.pos 0
  ({ buf := a.buf.set a.pos (input + bufout * (1/2))
     pos := (a.pos + 1) % a.buf.length }, -input + bufout)

/-- Rust `Reverb` (src/effects.rs lines 107-114): Freeverb, 8 combs + 4 allpasses. -/
structure Reverb where
  enabled : Bool
  room_size : ℚ
  damping : ℚ
  mix : ℚ
  combs : List CombFilter
  allpasses : List AllpassFilter
deriving DecidableEq

/-- Rust `Reverb::process` (src/effects.rs lines 139-149): returns exactly 0 and
leaves the state untouched when disabled; otherwise refreshes the comb
feedback/damping from `room_size`/`damping`, feeds the attenuated input to the
parallel combs and the serial allpasses, and scales by `mix`. -/
def Reverb.process (r : Reverb) (sample : ℚ) : Reverb × ℚ :=
  if !r.enabled then (r, 0)
  else
    let fb := r.room_size * (28/100) + 7/10
    let dp := r.damping * (4/10)
    let combs1 := r.combs.map (fun c => { c with feedback := fb, damp1 := dp, damp2 := 1 - dp })
    let input := sample * (15/1000)
    let combRun := combs1.foldl
      (fun (acc : List CombFilter × ℚ) c =>
        let (c', out) := c.process input
        (acc.1 ++ [c'], acc.2 + out)) ([], 0)
    let apRun := r.allpasses.foldl
      (fun (acc : List AllpassFilter × ℚ) ap =>
        let (ap', out) := ap.process acc.2
        (acc.1 ++ [ap'], out)) ([], combRun.2)
    ({ r with combs := combRun.1, allpasses := apRun.1 }, apRun.2 * r.mix * 3)

/-- Rust `Delay` (src/effects.rs lines 161-179): ring-buffer echo. -/
structure Delay where
  enabled : Bool
  time_ms : ℚ
  feedback : ℚ
  mix : ℚ
  buf : List ℚ
  write : ℕ
  sample_rate : ℚ
deriving DecidableEq

/-- Rust `Delay::process` (src/effects.rs lines 182-191): returns exactly 0 and
leaves the state untouched when disabled; otherwise reads `time_ms` behind the
write head, re-injects feedback, and outputs the delayed signal scaled by
`mix` (wet only). -/
def Delay.process (d : Delay) (sample : ℚ) : Delay × ℚ :=
  if !d.enabled then (d, 0)
  else
    let delay_samp := min (max (⌊d.time_ms / 1000 * d.sample_rate⌋).toNat 1)
      (d.buf.length - 1)
    let read := (d.write + d.buf.length - delay_samp) % d.buf.length
    let delayed := d.buf.getD read 0
    ({ d with
       buf := d.buf.set d.write (sample + delayed * d.feedback)
       write := (d.write + 1) % d.buf.length }, delayed * d.mix)

/-- Rust `Distortion` (src/effects.rs lines 200-205): stateless waveshaper. -/
structure Distortion where
  enabled : Bool
  drive : ℚ
  tone : ℚ
  level : ℚ
deriving DecidableEq

/-- Rust `Distortion::process` (src/effects.rs lines 214-220): returns exactly 0
when disabled; otherwise blends `tanh(driven)` (via the transcendental
parameter `tanhf`) with a hard clamp, scaled by `level`.  The effect mutates
no state. -/
def Distortion.process (tanhf : ℚ → ℚ) (ds : Distortion) (sample : ℚ) : ℚ :=
  if !ds.enabled then 0
  else
    let driven := sample * ds.drive
    let soft := tanhf driven
    let hard := qclamp driven (-1) 1
    (soft * (1 - ds.tone) + hard * ds.tone) * ds.level

/-- Rust `CombFilter::new` (src/effects.rs lines 67-70). -/
def CombFilter.new (size : ℕ) : CombFilter :=
  { buf := List.replicate size 0, pos := 0, feedback := 84/100,
    damp_store := 0, damp1 := 1/5, damp2 := 4/5 }

/-- Rust `AllpassFilter::new` (src/effects.rs lines 91-93). -/
def AllpassFilter.new (size : ℕ) : AllpassFilter :=
  { buf := List.replicate size 0, pos := 0 }

/-- Rust `Reverb::new` (src/effects.rs lines 117-135): disabled, with the Freeverb
comb/allpass sizes, and the comb feedback/damping derived from the default
`room_size`/`damping`. -/
def Reverb.new : Reverb :=
  let r : Reverb :=
    { enabled := false, room_size := 1/2, damping := 1/2, mix := 3/10,
      combs := [1116, 1188, 1277, 1356, 1422, 1491, 1557, 1617].map CombFilter.new,
      allpasses := [556, 441, 341, 225].map AllpassFilter.new }
  let fb := r.room_size * (28/100) + 7/10
  let dp := r.damping * (4/10)
  { r with combs := r.combs.map (fun c =>
      { c with feedback := fb, damp1 := dp, damp2 := 1 - dp }) }

/-- Rust `Delay::new` (src/effects.rs lines 172-178): one-second ring buffer. -/
def Delay.new (sample_rate : ℚ) : Delay :=
  { enabled := false, time_ms := 250, feedback := 2/5, mix := 3/10,
    buf := List.replicate (⌊sample_rate⌋).toNat 0, write := 0, sample_rate }

/-- Rust `Distortion::new` (src/effects.rs lines 208-210). -/
def Distortion.new : Distortion :=
  { enabled := false, drive := 3, tone := 3/10, level := 7/10 }

/-- Rust `FilterMode` (src/effects.rs). -/
inductive FilterMode where
  | LowPass | HighPass | BandPass
deriving DecidableEq

/-- Rust `BiquadFilter` (src/effects.rs lines 246-258): RBJ biquad with lazily
cached coefficients and Direct Form I state. -/
structure BiquadFilter where
  enabled : Bool
  mode : FilterMode
  cutoff : ℚ
  q : ℚ
  sample_rate : ℚ
  b0 : ℚ
  b1 : ℚ
  b2 : ℚ
  a1 : ℚ
  a2 : ℚ
  x1 : ℚ
  x2 : ℚ
  y1 : ℚ
  y2 : ℚ
  last_cutoff : ℚ
  last_q : ℚ
  last_mode : FilterMode
deriving DecidableEq

/-- Rust `BiquadFilter::reset_state` (src/effects.rs lines 277-279). -/
def BiquadFilter.reset_state (f : BiquadFilter) : BiquadFilter :=
  { f with x1 := 0, x2 := 0, y1 := 0, y2 := 0 }

/-- Rust `BiquadFilter::recompute` (src/effects.rs lines 281-300): RBJ cookbook
coefficients.  `piv` models the f32 constant `PI`; `cosf`/`sinf` model
`f32::cos`/`f32::sin`. -/
def BiquadFilter.recompute (piv : ℚ) (cosf sinf : ℚ → ℚ) (f : BiquadFilter) :
    BiquadFilter :=
  let w0 := 2 * piv * min f.cutoff (f.sample_rate * (499/1000)) / f.sample_rate
  let cos_w := cosf w0
  let sin_w := sinf w0
  let alpha := sin_w / (2 * f.q)
  let bs : ℚ × ℚ × ℚ :=
    match f.mode with
    | .LowPass => ((1 - cos_w) / 2, 1 - cos_w, (1 - cos_w) / 2)
    | .HighPass => ((1 + cos_w) / 2, -(1 + cos_w), (1 + cos_w) / 2)
    | .BandPass => (sin_w / 2, 0, -(sin_w / 2))
  let a0 := 1 + alpha
  { f with
    b0 := bs.1 / a0
    b1 := bs.2.1 / a0
    b2 := bs.2.2 / a0
    a1 := -2 * cos_w / a0
    a2 := (1 - alpha) / a0
    last_cutoff := f.cutoff
    last_q := f.q
    last_mode := f.mode }

/-- Rust `BiquadFilter::new` (src/effects.rs lines 261-274): disabled low-pass at
5 kHz, q = 0.707 exactly as written, with the coefficient cache filled by an
initial `recompute`. -/
def BiquadFilter.new (piv : ℚ) (cosf sinf : ℚ → ℚ) (sample_rate : ℚ) :
    BiquadFilter :=
  BiquadFilter.recompute piv cosf sinf
    { enabled := false, mode := .LowPass, cutoff := 5000, q := 707/1000,
      sample_rate, b0 := 0, b1 := 0, b2 := 0, a1 := 0, a2 := 0,
      x1 := 0, x2 := 0, y1 := 0, y2 := 0,
      last_cutoff := -1, last_q := -1, last_mode := .LowPass }

/-- Rust `BiquadFilter::process` (src/effects.rs lines 302-313): verbatim
passthrough of the input with untouched state when disabled; otherwise
recompute the coefficients if `cutoff`/`q`/`mode` changed since the cache was
filled, then run one Direct Form I step. -/
def BiquadFilter.process (piv : ℚ) (cosf sinf : ℚ → ℚ) (f : BiquadFilter)
    (x : ℚ) : BiquadFilter × ℚ :=
  if !f.enabled then (f, x)
  else
    let f := if f.cutoff ≠ f.last_cutoff ∨ f.q ≠ f.last_q ∨ f.mode ≠ f.last_mode
      then f.recompute piv cosf sinf else f
    let y := f.b0 * x + f.b1 * f.x1 + f.b2 * f.x2 - f.a1 * f.y1 - f.a2 * f.y2
    ({ f with x2 := f.x1, x1 := x, y2 := f.y1, y1 := y }, y)

-- ── src/synth.rs: FX routing; the sidechain of the richer engine snapshot ───

/-- Rust `FxRouting` (src/synth.rs lines 99-113): 9 send levels. -/
structure FxRouting where
  s1_reverb : ℚ
  s1_delay : ℚ
  s1_dist : ℚ
  s2_reverb : ℚ
  s2_delay : ℚ
  s2_dist : ℚ
  dr_reverb : ℚ
  dr_delay : ℚ
  dr_dist : ℚ
deriving DecidableEq

/-- Modelled from the spec: the `Sidechain` effect struct (spec §4.5, §3) of
the richer engine snapshot, whose declaration is not under src/ — only its
fields as referenced by `App::load`/`App::save` (src/app.rs) are visible:
`enabled`, `depth`, `release_ms`, and the per-bus duck flags. -/
structure Sidechain where
  enabled : Bool
  depth : ℚ
  release_ms : ℚ
  duck_s1 : Bool
  duck_s2 : Bool
deriving DecidableEq

/-- The engine (`Synth`, src/synth.rs lines 117-156) as seen by the
control/persistence layer: the declared fields plus the richer snapshot's
`sidechain`/`filter1`/`filter2` referenced by src/app.rs (spec §9).  Envelope
parameters are inert rationals here; insert `EffectChain`s (empty, dyn-trait
lists) are not modelled. -/
structure SynthS where
  sample_rate : ℚ
  bpm : ℚ
  master_clock : ℕ
  wave_type : WaveType
  voices : VoiceBank
  attack : ℚ
  decay : ℚ
  sustain : ℚ
  release : ℚ
  volume : ℚ
  sequencer : Sequencer
  wave_type2 : WaveType
  voices2 : VoiceBank
  attack2 : ℚ
  decay2 : ℚ
  sustain2 : ℚ
  release2 : ℚ
  volume2 : ℚ
  sequencer2 : Sequencer
  drum_machine : DrumMachine
  reverb : Reverb
  delay : Delay
  distortion : Distortion
  sidechain : Sidechain
  filter1 : BiquadFilter
  filter2 : BiquadFilter
  fx_routing : FxRouting

-- ── src/save.rs: the persisted snapshot ──────────────────────────────────────

/-- Rust `SeqSave` (src/save.rs). -/
structure SeqSave where
  num_steps : ℕ
  steps : List (Option ℕ)

/-- Rust `TrackSave` (src/save.rs). -/
structure TrackSave where
  kind : ℕ
  steps : List ℕ
  muted : Bool
  volume : ℚ

/-- Rust `DrumsSave` (src/save.rs). -/
structure DrumsSave where
  num_steps : ℕ
  swing : ℚ
  tracks : List TrackSave

/-- Rust `ReverbSave` (src/save.rs). -/
structure ReverbSave where
  enabled : Bool
  room_size : ℚ
  damping : ℚ
  mix : ℚ

/-- Rust `DelaySave` (src/save.rs). -/
structure DelaySave where
  enabled : Bool
  time_ms : ℚ
  feedback : ℚ
  mix : ℚ

/-- Rust `DistSave` (src/save.rs). -/
structure DistSave where
  enabled : Bool
  drive : ℚ
  tone : ℚ
  level : ℚ

/-- Rust `SidechainSave` (src/save.rs). -/
structure SidechainSave where
  enabled : Bool
  depth : ℚ
  release_ms : ℚ
  duck_s1 : Bool
  duck_s2 : Bool

/-- Rust `FilterSave` (src/save.rs). -/
structure FilterSave where
  enabled : Bool
  mode : ℕ
  cutoff : ℚ
  q : ℚ

/-- Rust `RoutingSave` (src/save.rs). -/
structure RoutingSave where
  s1_reverb : ℚ
  s1_delay : ℚ
  s1_dist : ℚ
  s2_reverb : ℚ
  s2_delay : ℚ
  s2_dist : ℚ
  dr_reverb : ℚ
  dr_delay : ℚ
  dr_dist : ℚ

/-- Rust `SaveFile` (src/save.rs). -/
structure SaveFile where
  bpm : ℚ
  base_octave : ℤ
  scale : ℕ
  scale_root : ℕ
  wave1 : ℕ
  wave2 : ℕ
  volume : ℚ
  volume2 : ℚ
  seq1 : SeqSave
  seq2 : SeqSave
  drums : DrumsSave
  reverb : ReverbSave
  delay : DelaySave
  distortion : DistSave
  sidechain : SidechainSave
  filter1 : FilterSave
  filter2 : FilterSave
  routing : RoutingSave

-- ── src/app.rs: the control surface and `App::load` ──────────────────────────

/-- Rust `key_to_note` (src/app.rs lines 16-36): keyboard-to-MIDI mapping. -/
def key_to_note (key : Char) (base_octave : ℤ) : Option ℕ :=
  let so : Option (ℤ × ℤ) :=
    match key with
    | 'z' => some (0, 0) | 'x' => some (2, 0) | 'c' => some (4, 0)
    | 'v' => some (5, 0) | 'b' => some (7, 0) | 'n' => some (9, 0)
    | 'm' => some (11, 0) | ',' => some (12, 0) | '.' => some (14, 0)
    | '/' => some (16, 0)
    | 's' => some (1, 0) | 'd' => some (3, 0) | 'g' => some (6, 0)
    | 'h' => some (8, 0) | 'j' => some (10, 0) | 'l' => some (13, 0)
    | ';' => some (15, 0)
    | 'q' => some (0, 1) | 'w' => some (2, 1) | 'e' => some (4, 1)
    | 'r' => some (5, 1) | 't' => some (7, 1) | 'y' => some (9, 1)
    | 'u' => some (11, 1) | 'i' => some (12, 1) | 'o' => some (14, 1)
    | 'p' => some (16, 1)
    | '2' => some (1, 1) | '3' => some (3, 1) | '5' => some (6, 1)
    | '6' => some (8, 1) | '7' => some (10, 1) | '9' => some (13, 1)
    | '0' => some (15, 1)
    | _ => none
  match so with
  | none => none
  | some (st, oct) =>
      let note := (base_octave + oct) * 12 + 12 + st
      if 0 ≤ note ∧ note ≤ 127 then some note.toNat else none

/-- The `App` state (src/app.rs lines 66-96) restricted to what `load` and
`release_all` read or write.  `key_last_seen` (wall-clock `Instant`s for the
fallback key-release heuristic) is real-time state outside the shallow
embedding; the scale quantizer is held as its selected index and root
(scale.rs is not under src/). -/
structure AppS where
  synth : SynthS
  base_octave : ℤ
  pressed_keys : List Char
  status_msg : String
  seq_cursor : ℕ
  seq2_cursor : ℕ
  drum_step : ℕ
  scale : ℕ
  scale_root : ℕ

/-- Rust `App::key_release` (src/app.rs lines 131-136): if the key was pressed,
unpress it and release the mapped note (quantized by the scale quantizer,
passed as the parameter `quantize` since scale.rs is not under src/). -/
def AppS.key_release (quantize : ℕ → ℕ) (a : AppS) (k : Char) : AppS :=
  if !a.pressed_keys.contains k then a
  else
    let a := { a with pressed_keys := a.pressed_keys.erase k }
    match key_to_note k a.base_octave with
    | none => a
    | some note =>
        { a with synth :=
          { a.synth with voices := a.synth.voices.note_off (quantize note) } }

/-- Rust `App::release_all` (src/app.rs lines 160-164): release every pressed key. -/
def AppS.release_all (quantize : ℕ → ℕ) (a : AppS) : AppS :=
  a.pressed_keys.foldl (AppS.key_release quantize) a

/-- The wave-index decoding of `App::load`: `1 => Square, 2 => Sawtooth,
3 => Triangle, _ => Sine`. -/
def waveOf : ℕ → WaveType
  | 1 => .Square
  | 2 => .Sawtooth
  | 3 => .Triangle
  | _ => .Sine

/-- The filter-mode decoding of `App::load`: `1 => HighPass, 2 => BandPass,
_ => LowPass`. -/
def filterModeOf : ℕ → FilterMode
  | 1 => .HighPass
  | 2 => .BandPass
  | _ => .LowPass

/-- The drum-track part of `App::load` (src/app.rs): the first
`min` existing/saved tracks take the saved pattern (resized to `nd`), mute
flag and clamped volume; later tracks are untouched.  The saved `kind` is not
applied by the code. -/
def loadTracks (old : List DrumTrack) (saved : List TrackSave) (nd : ℕ) :
    List DrumTrack :=
  (old.zipWith (fun o t =>
    { o with
      steps := resizeL t.steps nd 0
      muted := t.muted
      volume := qclamp t.volume 0 1 }) saved) ++ old.drop saved.length

/-- Rust `App::load` (src/app.rs lines 895-1015).  The file read and JSON parse are
external I/O, surfaced here as `input : Except String SaveFile`; either
failure sets only the status message and returns with the whole engine
untouched.  On success every numeric field is clamped to its documented range
and applied; `quantize` and `scaleSel` stand for the scale-quantizer lookup
(scale.rs is not under src/). -/
def AppS.load (quantize : ℕ → ℕ) (scaleSel : ℕ → ℕ) (path : String)
    (input : Except String SaveFile) (a : AppS) : AppS :=
  match input with
  | .error e => { a with status_msg := "Load error: " ++ e }
  | .ok sf =>
      let a := a.release_all quantize
      let s := a.synth
      let nd := nclamp sf.drums.num_steps 1 32
      let f1 :=
        { s.filter1 with
          enabled := sf.filter1.enabled
          mode := filterModeOf sf.filter1.mode
          cutoff := qclamp sf.filter1.cutoff 80 18000
          q := qclamp sf.filter1.q (1/2) 10 }
      let f2 :=
        { s.filter2 with
          enabled := sf.filter2.enabled
          mode := filterModeOf sf.filter2.mode
          cutoff := qclamp sf.filter2.cutoff 80 18000
          q := qclamp sf.filter2.q (1/2) 10 }
      let s :=
        { s with
          bpm := qclamp sf.bpm 30 300
          wave_type := waveOf sf.wave1
          wave_type2 := waveOf sf.wave2
          volume := qclamp sf.volume 0 1
          volume2 := qclamp sf.volume2 0 1
          sequencer := s.sequencer.applyLoad sf.seq1.num_steps sf.seq1.steps
          sequencer2 := s.sequencer2.applyLoad sf.seq2.num_steps sf.seq2.steps
          drum_machine :=
            { s.drum_machine with
              num_steps := nd
              swing := qclamp sf.drums.swing 0 (1/2)
              tracks := loadTracks s.drum_machine.tracks sf.drums.tracks nd }
          reverb :=
            { s.reverb with
              enabled := sf.reverb.enabled
              room_size := qclamp sf.reverb.room_size 0 1
              damping := qclamp sf.reverb.damping 0 1
              mix := qclamp sf.reverb.mix 0 1 }
          delay :=
            { s.delay with
              enabled := sf.delay.enabled
              time_ms := qclamp sf.delay.time_ms 10 1000
              feedback := qclamp sf.delay.feedback 0 (95/100)
              mix := qclamp sf.delay.mix 0 1 }
          distortion :=
            { s.distortion with
              enabled := sf.distortion.enabled
              drive := qclamp sf.distortion.drive 1 10
              tone := qclamp sf.distortion.tone 0 1
              level := qclamp sf.distortion.level 0 1 }
          sidechain :=
            { enabled := sf.sidechain.enabled
              depth := qclamp sf.sidechain.depth 0 1
              release_ms := qclamp sf.sidechain.release_ms 10 500
              duck_s1 := sf.sidechain.duck_s1
              duck_s2 := sf.sidechain.duck_s2 }
          filter1 := if f1.enabled then f1.reset_state else f1
          filter2 := if f2.enabled then f2.reset_state else f2
          fx_routing :=
            { s1_reverb := qclamp sf.routing.s1_reverb 0 1
              s1_delay := qclamp sf.routing.s1_delay 0 1
              s1_dist := qclamp sf.routing.s1_dist 0 1
              s2_reverb := qclamp sf.routing.s2_reverb 0 1
              s2_delay := qclamp sf.routing.s2_delay 0 1
              s2_dist := qclamp sf.routing.s2_dist 0 1
              dr_reverb := qclamp sf.routing.dr_reverb 0 1
              dr_delay := qclamp sf.routing.dr_delay 0 1
              dr_dist := qclamp sf.routing.dr_dist 0 1 } }
      { a with
        synth := s
        base_octave := iclamp sf.base_octave 0 8
        scale := scaleSel sf.scale
        scale_root := sf.scale_root % 12
        seq_cursor := 0
        seq2_cursor := 0
        drum_step := 0
        status_msg := "Loaded from " ++ path }

-- ── Derived notions and concrete states used by the verification ─────────────

/-- One envelope-clock step of a voice, with rational (finite) sample rate and
ADSR parameters: the state transition of `Voice::next_sample`. -/
def envStep (sinf : Fv → Fv) (wave : WaveType) (srq A D S R : ℚ) (v : Voice) :
    Voice :=
  v.step sinf wave (.fin srq) (.fin A) (.fin D) (.fin S) (.fin R)

/-- The Sequencer invariant of spec §3: the cursor is in range and the step
array length matches the step count. -/
def Sequencer.inv (s : Sequencer) : Prop :=
  s.current_step < s.num_steps ∧ s.steps.length = s.num_steps

/-- A playing 16-step sequencer whose only non-empty step is step 0 = note 60
(spec §8 scenario). -/
def seqC3 : Sequencer :=
  { Sequencer.new 44100 with
    playing := true
    steps := some 60 :: List.replicate 15 none }

/-- A playing drum machine holding one sounding open-hat voice, whose
closed-hat track has probability 10 at step 0 (all other steps empty).  The
first probability roll out of the initial `prob_seed` is 11, so the
closed-hat trigger itself is skipped at step 0. -/
def dmC10 : DrumMachine :=
  let dm := DrumMachine.new 44100
  { dm with
    playing := true
    voices := [DrumVoice.new DrumKind.OpenHat 44100 7 (85/100)]
    tracks := dm.tracks.map (fun t =>
      if t.kind == DrumKind.ClosedHat
      then { t with steps := 10 :: List.replicate 15 0 }
      else t) }

/-- A voice sitting in the Decay stage at full level. -/
def vDecayFull : Voice :=
  { frequency := .fin 440, phase := .fin 0, stage := .Decay,
    level := .fin 1, release_level := .fin 0 }

/-- The reachable sequencer state used to refute the cursor invariant across
`App::load`: 24 steps, playing, cursor on step 20. -/
def seqC9pre : Sequencer :=
  ((((Sequencer.new 44100).cycle_num_steps).toggle_play).1.tick 120 110260).1

-- ═══════════════════════════════════════════════════════════════════════════
-- Theorems
-- ═══════════════════════════════════════════════════════════════════════════

theorem resizeL_length {α : Type} (l : List α) (n : ℕ) (pad : α) :
    (resizeL l n pad).length = n := by
  simp [resizeL]
  omega

@[simp] theorem Fv.add_fin (a b : ℚ) : (fin a).add (fin b) = fin (a + b) := rfl

@[simp] theorem Fv.neg_fin (a : ℚ) : (fin a).neg = fin (-a) := rfl

@[simp] theorem Fv.sub_fin (a b : ℚ) : (fin a).sub (fin b) = fin (a - b) := by
  simp [Fv.sub, Fv.add, Fv.neg]
  ring_nf

@[simp] theorem Fv.mul_fin (a b : ℚ) : (fin a).mul (fin b) = fin (a * b) := rfl

theorem Fv.div_fin {b : ℚ} (a : ℚ) (hb : b ≠ 0) :
    (fin a).div (fin b) = fin (a / b) := by
  simp [Fv.div, hb]

@[simp] theorem Fv.le_fin (a b : ℚ) : (fin a).le (fin b) = decide (a ≤ b) := rfl

@[simp] theorem Fv.lt_fin (a b : ℚ) : (fin a).lt (fin b) = decide (a < b) := rfl

theorem Fv.div_fin_zero_pos {a : ℚ} (ha : 0 < a) : (fin a).div (fin 0) = pinf := by
  simp [Fv.div, ha.ne', ha]

@[simp] theorem Fv.add_fin_pinf (a : ℚ) : (fin a).add pinf = pinf := rfl

@[simp] theorem Fv.sub_fin_pinf (a : ℚ) : (fin a).sub pinf = ninf := rfl

@[simp] theorem Fv.le_ninf_fin (b : ℚ) : ninf.le (fin b) = true := rfl

@[simp] theorem Fv.le_fin_pinf (a : ℚ) : (fin a).le pinf = true := rfl

@[simp] theorem Fv.le_one_pinf : (fin 1).le pinf = true := rfl

theorem Fv.mul_fin_pinf_pos {a : ℚ} (ha : 0 < a) : (fin a).mul pinf = pinf := by
  simp [Fv.mul, ha.ne', ha]

@[simp] theorem Fv.sub_fin_nan (a : ℚ) : (fin a).sub nan = nan := rfl

@[simp] theorem Fv.le_nan_right (x : Fv) : x.le nan = false := by
  cases x <;> rfl

@[simp] theorem Fv.le_nan_left (x : Fv) : nan.le x = false := by
  cases x <;> rfl

theorem Fv.div_zero_zero : (Fv.fin 0).div (Fv.fin 0) = Fv.nan := by
  simp [Fv.div]

-- ── The step grid at 44100 Hz / 120 bpm ──────────────────────────────────────

theorem roundHA_boundary :
    (roundHalfAway ((44100 * 60 : ℚ) / (120 * 4))).toNat = 5513 := by
  norm_num [roundHalfAway]
  decide

theorem sps_seq (s : Sequencer) (h : s.sample_rate = 44100) :
    s.samples_per_step 120 = 5513 := by
  have := roundHA_boundary
  simpa [Sequencer.samples_per_step, h] using this

theorem sps_drum (dm : DrumMachine) (h : dm.sample_rate = 44100) :
    dm.samples_per_step 120 = 5513 := by
  have := roundHA_boundary
  simpa [DrumMachine.samples_per_step, h] using this

-- ── C2: the shared step clock at 44100 Hz / 120 bpm ──────────────────────────

/-- C2, counterexample.  The claim states `samples_per_step =
round(44100*60/480) = 5512`.  The code computes `44100*60/480 = 5512.5`
exactly in f32, and Rust's `f32::round` rounds halfway cases away from zero,
so both the melodic Sequencer and the DrumMachine get 5513, not 5512. -/
theorem c2_counterexample :
    (Sequencer.new 44100).samples_per_step 120 = 5513 ∧
    (DrumMachine.new 44100).samples_per_step 120 = 5513 ∧
    (Sequencer.new 44100).samples_per_step 120 ≠ 5512 := by
  refine ⟨sps_seq _ rfl, sps_drum _ rfl, ?_⟩
  rw [sps_seq _ rfl]
  decide

/-- C2, amended: for sample_rate 44100 and bpm 120 the shared step clock of
the Sequencer and the DrumMachine computes `samples_per_step =
round(44100*60/480) = round(5512.5) = 5513` (round-half-away-from-zero), and
a playing sequencer emits a step-boundary event exactly at the clock values
0, 5513, 11026, … -/
theorem c2_amended :
    (Sequencer.new 44100).samples_per_step 120 = 5513 ∧
    (DrumMachine.new 44100).samples_per_step 120 = 5513 ∧
    ∀ clock : ℕ,
      (({ Sequencer.new 44100 with playing := true } : Sequencer).tick
          120 clock).2.isSome = decide (clock % 5513 = 0) := by
  refine ⟨sps_seq _ rfl, sps_drum _ rfl, fun clock => ?_⟩
  have hsps : ({ Sequencer.new 44100 with playing := true } : Sequencer
      ).samples_per_step 120 = 5513 := sps_seq _ rfl
  simp only [Sequencer.tick, hsps]
  norm_num
  by_cases h : clock % 5513 = 0 <;> simp [h]

-- ── C3: the step-0-note-60 sequencer scenario ────────────────────────────────

/-- C3, counterexample.  The claim places the wrap back to step 0 at clock
`5512*16 = 88192`; the actual step length is 5513, so at clock 88192 the tick
is not on a step boundary at all and returns no event (in particular not the
claimed `note_off = 60, note_on = 60`). -/
theorem c3_counterexample : (seqC3.tick 120 (5512 * 16)).2 = none := by
  have h := sps_seq seqC3 rfl
  simp only [Sequencer.tick, h]
  decide

/-- C3, amended: for the playing 16-step sequencer whose only non-empty step
is step 0 holding note 60 at bpm 120, the tick at clock 0 returns
`note_on = 60, note_off = None`, and the tick at clock `5513*16 = 88208`
(the wrap back to step 0) returns `note_off = None` (previous step 15's
value) and `note_on = 60`. -/
theorem c3_amended :
    (seqC3.tick 120 0).2 = some { note_off := none, note_on := some 60 } ∧
    (seqC3.tick 120 (5513 * 16)).2
      = some { note_off := none, note_on := some 60 } := by
  have h := sps_seq seqC3 rfl
  constructor <;> (simp only [Sequencer.tick, h]; decide)

-- ── C4: Euclidean fill (k = 4, n = 16) ───────────────────────────────────────

/-- C4: `euclidean_fill` with k = 4 on a 16-step track yields the
deterministic bucket-accumulator pattern, active exactly at indices
3, 7, 11, 15 with probability 100 and every other step 0 — in particular
exactly 4 active (non-zero) steps. -/
theorem c4_euclidean_fill :
    (((DrumMachine.new 44100).euclidean_fill 0 4).tracks.getD 0
        (DrumTrack.new .Kick 16)).steps
      = [0, 0, 0, 100, 0, 0, 0, 100, 0, 0, 0, 100, 0, 0, 0, 100] ∧
    (euclidSteps 4 16).countP (fun p => p ≠ 0) = 4 ∧
    (((DrumMachine.new 44100).euclidean_fill 0 4).tracks.getD 0
        (DrumTrack.new .Kick 16)).steps = euclidSteps 4 16 ∧
    (List.range 16).filter (fun i => (euclidSteps 4 16).getD i 0 ≠ 0)
      = [3, 7, 11, 15] := by
  refine ⟨by decide, by decide, by decide, by decide⟩

-- ── C6: swing offsets in the drum machine ────────────────────────────────────

/-- C6: while playing, for every swing value and every clock value, the drum
machine's step fire happens exactly when the phase inside the current step
equals the swing offset: `round(swing * samples_per_step)` samples for
odd-indexed steps and 0 for even-indexed steps; when it fires, the state
advance is `fire_step` at the new current step.  In particular the claimed
instance `round(0.25 * 5512) = 1378` holds. -/
theorem c6_swing_offset (dm : DrumMachine) (bpm : ℚ) (clock : ℕ)
    (hp : dm.playing = true) :
    (dm.firesAt bpm clock = true ↔
      clock % (max (dm.samples_per_step bpm) 1)
        = (if ((clock / (max (dm.samples_per_step bpm) 1)) % dm.num_steps) % 2 = 1
           then (roundHalfAway
              (dm.swing * ((max (dm.samples_per_step bpm) 1 : ℕ) : ℚ))).toNat
           else 0)) ∧
    (dm.firesAt bpm clock = true →
      dm.stepAdvance bpm clock
        = DrumMachine.fire_step
            { dm with current_step :=
                (clock / (max (dm.samples_per_step bpm) 1)) % dm.num_steps }) ∧
    (roundHalfAway ((1/4 : ℚ) * 5512)).toNat = 1378 := by
  refine ⟨?_, ?_, ?_⟩
  · simp [DrumMachine.firesAt, hp]
  · intro h
    simp [DrumMachine.stepAdvance, h]
  · norm_num [roundHalfAway]
    decide

/-- C6, witness: the swing-offset characterisation applied to a playing
machine with swing 0.25 at 44100 Hz, bpm 120, clock 0. -/
theorem c6_swing_offset_witness :
    ({ DrumMachine.new 44100 with playing := true, swing := 1/4 }
        : DrumMachine).playing = true ∧
    ((({ DrumMachine.new 44100 with playing := true, swing := 1/4 }
        : DrumMachine).firesAt 120 0 = true ↔
      0 % (max (({ DrumMachine.new 44100 with playing := true, swing := 1/4 }
            : DrumMachine).samples_per_step 120) 1)
        = (if ((0 / (max (({ DrumMachine.new 44100 with playing := true, swing := 1/4 }
              : DrumMachine).samples_per_step 120) 1))
              % ({ DrumMachine.new 44100 with playing := true, swing := 1/4 }
                  : DrumMachine).num_steps) % 2 = 1
           then (roundHalfAway
              (({ DrumMachine.new 44100 with playing := true, swing := 1/4 }
                  : DrumMachine).swing *
                ((max (({ DrumMachine.new 44100 with playing := true, swing := 1/4 }
                    : DrumMachine).samples_per_step 120) 1 : ℕ) : ℚ))).toNat
           else 0)) ∧
    (({ DrumMachine.new 44100 with playing := true, swing := 1/4 }
        : DrumMachine).firesAt 120 0 = true →
      ({ DrumMachine.new 44100 with playing := true, swing := 1/4 }
          : DrumMachine).stepAdvance 120 0
        = DrumMachine.fire_step
            { ({ DrumMachine.new 44100 with playing := true, swing := 1/4 }
                : DrumMachine) with current_step :=
                (0 / (max (({ DrumMachine.new 44100 with playing := true, swing := 1/4 }
                    : DrumMachine).samples_per_step 120) 1))
                  % ({ DrumMachine.new 44100 with playing := true, swing := 1/4 }
                      : DrumMachine).num_steps }) ∧
    (roundHalfAway ((1/4 : ℚ) * 5512)).toNat = 1378) :=
  ⟨rfl, c6_swing_offset _ 120 0 rfl⟩

-- ── C7: disabled effects are exact bypasses ──────────────────────────────────

/-- C7: for every internal state and every input sample, a disabled send
effect outputs exactly 0 with its state untouched (Reverb, Delay, and — with
any `tanh` — Distortion), and a disabled insert BiquadFilter returns its
input unchanged with its state untouched. -/
theorem c7_disabled_effects :
    (∀ (r : Reverb) (x : ℚ), r.enabled = false → r.process x = (r, 0)) ∧
    (∀ (d : Delay) (x : ℚ), d.enabled = false → d.process x = (d, 0)) ∧
    (∀ (tanhf : ℚ → ℚ) (ds : Distortion) (x : ℚ),
      ds.enabled = false → Distortion.process tanhf ds x = 0) ∧
    (∀ (piv : ℚ) (cosf sinf : ℚ → ℚ) (f : BiquadFilter) (x : ℚ),
      f.enabled = false → f.process piv cosf sinf x = (f, x)) := by
  refine ⟨?_, ?_, ?_, ?_⟩
  · intro r x h
    simp [Reverb.process, h]
  · intro d x h
    simp [Delay.process, h]
  · intro tanhf ds x h
    simp [Distortion.process, h]
  · intro piv cosf sinf f x h
    simp [BiquadFilter.process, h]

/-- C7, witness: the bypass equalities at the freshly constructed (disabled)
effects on the input sample 1. -/
theorem c7_disabled_effects_witness :
    Reverb.new.enabled = false ∧ Reverb.new.process 1 = (Reverb.new, 0) ∧
    (Delay.new 44100).enabled = false ∧
    (Delay.new 44100).process 1 = (Delay.new 44100, 0) ∧
    Distortion.new.enabled = false ∧
    Distortion.process (fun q => q) Distortion.new 1 = 0 ∧
    (BiquadFilter.new 3 (fun _ => 1) (fun _ => 0) 44100).enabled = false ∧
    (BiquadFilter.new 3 (fun _ => 1) (fun _ => 0) 44100).process
        3 (fun _ => 1) (fun _ => 0) 1
      = (BiquadFilter.new 3 (fun _ => 1) (fun _ => 0) 44100, 1) := by
  have h := c7_disabled_effects
  have hb : (BiquadFilter.new 3 (fun _ => 1) (fun _ => 0) 44100).enabled = false := by
    simp [BiquadFilter.new, BiquadFilter.recompute]
  exact ⟨rfl, h.1 _ _ rfl, rfl, h.2.1 _ _ rfl, rfl, h.2.2.1 _ _ _ rfl,
    hb, h.2.2.2 _ _ _ _ _ hb⟩

-- ── C8: a failed load leaves the engine untouched ────────────────────────────

/-- C8: when the load input fails (file read or parse, surfaced as
`Except.error`), `App::load` only sets the status message: the whole `App`
state — in particular every field of the engine (`synth`), both sequencers,
the drum machine, all effects and the routing matrix — is returned
unmodified. -/
theorem c8_load_failure_unmodified (quantize scaleSel : ℕ → ℕ)
    (path e : String) (a : AppS) :
    AppS.load quantize scaleSel path (.error e) a
      = { a with status_msg := "Load error: " ++ e } ∧
    (AppS.load quantize scaleSel path (.error e) a).synth = a.synth := by
  exact ⟨rfl, rfl⟩

-- ── C9: sequencer invariants ─────────────────────────────────────────────────

/-- C9, counterexample.  Reachable by the listed operations: a sequencer
cycled to 24 steps, set playing, ticked to step 20, then hit by the load path
with a persisted 8-step pattern.  `App::load` installs the new `num_steps`
and step array but never touches `current_step`, so the invariant
`current_step < num_steps` is broken (20 ≥ 8); the length invariant still
holds. -/
theorem c9_counterexample :
    Sequencer.inv seqC9pre ∧
    seqC9pre.current_step = 20 ∧
    (seqC9pre.applyLoad 8 []).num_steps = 8 ∧
    (seqC9pre.applyLoad 8 []).current_step = 20 ∧
    ¬ Sequencer.inv (seqC9pre.applyLoad 8 []) := by
  have hsps : ((((Sequencer.new 44100).cycle_num_steps).toggle_play).1
      ).samples_per_step 120 = 5513 := sps_seq _ rfl
  have hpre : seqC9pre.current_step = 20 ∧ seqC9pre.num_steps = 24 ∧
      seqC9pre.steps.length = 24 := by
    unfold seqC9pre
    simp only [Sequencer.tick, hsps]
    decide
  obtain ⟨h1, h2, h3⟩ := hpre
  refine ⟨⟨by omega, by omega⟩, h1, ?_, ?_, ?_⟩
  · simp [Sequencer.applyLoad, nclamp]
  · simp [Sequencer.applyLoad, h1]
  · intro hinv
    have := hinv.1
    simp [Sequencer.applyLoad, nclamp, h1] at this

/-- C9, amended: the invariants `current_step < num_steps` and
`steps.len() == num_steps` are preserved by `tick`, `toggle_play`, `stop`,
`cycle_num_steps`, `set_step` and `clear_step`; the `App::load` path always
re-establishes the length invariant, but keeps the old cursor, so it
preserves `current_step < num_steps` only when the pre-load cursor is below
the loaded (clamped) step count. -/
theorem c9_invariants (s : Sequencer) (bpm : ℚ) (clock step note n1 : ℕ)
    (sl : List (Option ℕ)) (h : s.inv) :
    (s.tick bpm clock).1.inv ∧
    (s.toggle_play).1.inv ∧
    (s.stop).1.inv ∧
    s.cycle_num_steps.inv ∧
    (s.set_step step note).inv ∧
    (s.clear_step step).inv ∧
    (s.applyLoad n1 sl).steps.length = (s.applyLoad n1 sl).num_steps ∧
    (s.current_step < nclamp n1 1 32 → (s.applyLoad n1 sl).inv) := by
  obtain ⟨hc, hl⟩ := h
  have hpos : 0 < s.num_steps := lt_of_le_of_lt (Nat.zero_le _) hc
  refine ⟨?_, ?_, ?_, ?_, ?_, ?_, ?_, ?_⟩
  · cases hp : s.playing with
    | false => simpa [Sequencer.tick, hp, Sequencer.inv] using ⟨hc, hl⟩
    | true =>
        have hm : (clock / max (s.samples_per_step bpm) 1) % s.num_steps
            < s.num_steps := Nat.mod_lt _ hpos
        by_cases hz : clock % max (s.samples_per_step bpm) 1 = 0 <;>
          simp [Sequencer.tick, hp, hz, Sequencer.inv, hm, hl]
  · simpa [Sequencer.toggle_play, Sequencer.inv] using ⟨hc, hl⟩
  · exact ⟨hpos, hl⟩
  · refine ⟨?_, ?_⟩
    · simp only [Sequencer.cycle_num_steps]
      have hnext : 0 < (match s.num_steps with
          | 8 => 16 | 16 => 24 | 24 => 32 | _ => 8 : ℕ) := by
        split <;> omega
      split
      · exact hnext
      · omega
    · simp only [Sequencer.cycle_num_steps, resizeL_length]
  · unfold Sequencer.set_step
    split <;> simp [Sequencer.inv, hc, hl]
  · unfold Sequencer.clear_step
    split <;> simp [Sequencer.inv, hc, hl]
  · simp [Sequencer.applyLoad, resizeL_length]
  · intro hcur
    exact ⟨by simpa [Sequencer.applyLoad, nclamp] using hcur,
      by simp [Sequencer.applyLoad, resizeL_length, nclamp]⟩

/-- C9, witness: the preservation theorem applied to the fresh sequencer at
bpm 120, clock 0, step 0, note 60, loading a 16-step empty pattern. -/
theorem c9_invariants_witness :
    Sequencer.inv (Sequencer.new 44100) ∧
    (((Sequencer.new 44100).tick 120 0).1.inv ∧
    ((Sequencer.new 44100).toggle_play).1.inv ∧
    ((Sequencer.new 44100).stop).1.inv ∧
    (Sequencer.new 44100).cycle_num_steps.inv ∧
    ((Sequencer.new 44100).set_step 0 60).inv ∧
    ((Sequencer.new 44100).clear_step 0).inv ∧
    ((Sequencer.new 44100).applyLoad 16 []).steps.length
      = ((Sequencer.new 44100).applyLoad 16 []).num_steps ∧
    ((Sequencer.new 44100).current_step < nclamp 16 1 32 →
      ((Sequencer.new 44100).applyLoad 16 []).inv)) :=
  ⟨⟨by decide, by decide⟩,
    c9_invariants (Sequencer.new 44100) 120 0 0 60 16 [] ⟨by decide, by decide⟩⟩

-- ── C10: the hi-hat choke in `fire_step` ─────────────────────────────────────

theorem fireFold_append (cur : ℕ) (sr : ℚ) (ts : List DrumTrack) :
    ∀ acc : List DrumVoice × ℕ × ℕ × Bool,
      ∃ ext, (ts.foldl (fireTrackStep cur sr) acc).1 = acc.1 ++ ext ∧
        ∀ v ∈ ext, v.sample_pos = 0 := by
  induction ts with
  | nil => exact fun acc => ⟨[], by simp, by simp⟩
  | cons t ts ih =>
      intro acc
      have hstep : ∃ ext0, (fireTrackStep cur sr acc t).1 = acc.1 ++ ext0 ∧
          ∀ v ∈ ext0, v.sample_pos = 0 := by
        obtain ⟨vs, sd, ps, kk⟩ := acc
        unfold fireTrackStep
        dsimp only
        split
        · exact ⟨[], by simp, by simp⟩
        · split
          · exact ⟨[], by simp, by simp⟩
          · split
            · split
              · refine ⟨[DrumVoice.new t.kind sr (lcgStep sd) t.volume],
                  by simp, ?_⟩
                intro v hv
                simp at hv
                subst hv
                rfl
              · exact ⟨[], by simp, by simp⟩
            · refine ⟨[DrumVoice.new t.kind sr (lcgStep sd) t.volume],
                by simp, ?_⟩
              intro v hv
              simp at hv
              subst hv
              rfl
      obtain ⟨ext0, h0, h0z⟩ := hstep
      obtain ⟨ext1, h1, h1z⟩ := ih (fireTrackStep cur sr acc t)
      refine ⟨ext0 ++ ext1, ?_, ?_⟩
      · rw [List.foldl_cons, h1, h0, List.append_assoc]
      · intro v hv
        rcases List.mem_append.mp hv with hv | hv
        · exact h0z v hv
        · exact h1z v hv

/-- C10: whenever some unmuted closed-hat track has a non-zero probability at
the current step (a condition on the pattern content only, independent of any
probability roll), `fire_step` removes every open-hat voice from the pool
before the trigger loop runs, so the resulting pool is the choked old pool
followed only by freshly spawned voices (all at sample position 0). -/
theorem c10_hat_choke (dm : DrumMachine) (h : dm.closedFires = true) :
    ∃ spawned, dm.fire_step.voices
        = dm.voices.filter (fun v => !(v.kind == DrumKind.OpenHat)) ++ spawned
      ∧ ∀ v ∈ spawned, v.sample_pos = 0 := by
  obtain ⟨ext, he, hz⟩ := fireFold_append dm.current_step dm.sample_rate
    dm.tracks (dm.voices.filter (fun v => !(v.kind == DrumKind.OpenHat)),
      dm.seed, dm.prob_seed, dm.kick_triggered)
  refine ⟨ext, ?_, hz⟩
  simp only [DrumMachine.fire_step, h, if_true]
  exact he

/-- C10, witness: in `dmC10` the closed-hat pattern (probability 10 at the
current step) chokes the sounding open hat even though the closed-hat trigger
itself is then skipped by its probability roll (the roll is 11 ≥ 10): the
pool ends up empty. -/
theorem c10_hat_choke_witness :
    dmC10.closedFires = true ∧
    (∃ spawned, dmC10.fire_step.voices
        = dmC10.voices.filter (fun v => !(v.kind == DrumKind.OpenHat)) ++ spawned
      ∧ ∀ v ∈ spawned, v.sample_pos = 0) ∧
    dmC10.fire_step.voices = [] :=
  ⟨by decide, c10_hat_choke dmC10 (by decide), by decide⟩

-- ── Envelope step lemmas (C1, C5) ────────────────────────────────────────────

theorem Voice.step_of_off (sinf : Fv → Fv) (wave : WaveType)
    (sr a d s r : Fv) (v : Voice) (h : v.stage = .Off) :
    v.step sinf wave sr a d s r = v := by
  simp [Voice.step, Voice.next_sample, h]

theorem Voice.step_fields (sinf : Fv → Fv) (wave : WaveType)
    (sr a d s r : Fv) (v : Voice) (h : v.stage ≠ .Off) :
    (v.step sinf wave sr a d s r).stage = (v.envAdvance sr a d s r).stage ∧
    (v.step sinf wave sr a d s r).level = (v.envAdvance sr a d s r).level ∧
    (v.step sinf wave sr a d s r).release_level
      = (v.envAdvance sr a d s r).release_level := by
  simp [Voice.step, Voice.next_sample, h]

theorem envStep_attack_stay (sinf : Fv → Fv) (wave : WaveType)
    (srq A D S R l : ℚ) (hsr : srq ≠ 0) (hA : A ≠ 0) (v : Voice)
    (hst : v.stage = .Attack) (hl : v.level = .fin l)
    (hlt : ¬ 1 ≤ l + 1 / srq / A) :
    (envStep sinf wave srq A D S R v).stage = .Attack ∧
    (envStep sinf wave srq A D S R v).level = .fin (l + 1 / srq / A) ∧
    (envStep sinf wave srq A D S R v).release_level = v.release_level := by
  obtain ⟨h1, h2, h3⟩ := Voice.step_fields sinf wave (.fin srq) (.fin A)
    (.fin D) (.fin S) (.fin R) v (by simp [hst])
  rw [envStep, h1, h2, h3]
  rw [one_div] at hlt
  simp [Voice.envAdvance, hst, hl, Fv.div_fin _ hsr, Fv.div_fin _ hA, hlt]

theorem envStep_attack_done (sinf : Fv → Fv) (wave : WaveType)
    (srq A D S R l : ℚ) (hsr : srq ≠ 0) (hA : A ≠ 0) (v : Voice)
    (hst : v.stage = .Attack) (hl : v.level = .fin l)
    (hge : 1 ≤ l + 1 / srq / A) :
    (envStep sinf wave srq A D S R v).stage = .Decay ∧
    (envStep sinf wave srq A D S R v).level = .fin 1 ∧
    (envStep sinf wave srq A D S R v).release_level = v.release_level := by
  obtain ⟨h1, h2, h3⟩ := Voice.step_fields sinf wave (.fin srq) (.fin A)
    (.fin D) (.fin S) (.fin R) v (by simp [hst])
  rw [envStep, h1, h2, h3]
  rw [one_div] at hge
  simp [Voice.envAdvance, hst, hl, Fv.div_fin _ hsr, Fv.div_fin _ hA, hge]

theorem envStep_decay_stay (sinf : Fv → Fv) (wave : WaveType)
    (srq A D S R l : ℚ) (hsr : srq ≠ 0) (hD : D ≠ 0) (v : Voice)
    (hst : v.stage = .Decay) (hl : v.level = .fin l)
    (hgt : ¬ l - 1 / srq * (1 - S) / D ≤ S) :
    (envStep sinf wave srq A D S R v).stage = .Decay ∧
    (envStep sinf wave srq A D S R v).level = .fin (l - 1 / srq * (1 - S) / D) ∧
    (envStep sinf wave srq A D S R v).release_level = v.release_level := by
  obtain ⟨h1, h2, h3⟩ := Voice.step_fields sinf wave (.fin srq) (.fin A)
    (.fin D) (.fin S) (.fin R) v (by simp [hst])
  rw [envStep, h1, h2, h3]
  rw [one_div] at hgt
  simp [Voice.envAdvance, hst, hl, Fv.div_fin _ hsr, Fv.div_fin _ hD, hgt]

theorem envStep_decay_done (sinf : Fv → Fv) (wave : WaveType)
    (srq A D S R l : ℚ) (hsr : srq ≠ 0) (hD : D ≠ 0) (v : Voice)
    (hst : v.stage = .Decay) (hl : v.level = .fin l)
    (hle : l - 1 / srq * (1 - S) / D ≤ S) :
    (envStep sinf wave srq A D S R v).stage = .Sustain ∧
    (envStep sinf wave srq A D S R v).level = .fin S ∧
    (envStep sinf wave srq A D S R v).release_level = v.release_level := by
  obtain ⟨h1, h2, h3⟩ := Voice.step_fields sinf wave (.fin srq) (.fin A)
    (.fin D) (.fin S) (.fin R) v (by simp [hst])
  rw [envStep, h1, h2, h3]
  rw [one_div] at hle
  simp [Voice.envAdvance, hst, hl, Fv.div_fin _ hsr, Fv.div_fin _ hD, hle]

theorem envStep_sustain (sinf : Fv → Fv) (wave : WaveType)
    (srq A D S R : ℚ) (v : Voice) (hst : v.stage = .Sustain) :
    (envStep sinf wave srq A D S R v).stage = .Sustain ∧
    (envStep sinf wave srq A D S R v).level = .fin S ∧
    (envStep sinf wave srq A D S R v).release_level = v.release_level := by
  obtain ⟨h1, h2, h3⟩ := Voice.step_fields sinf wave (.fin srq) (.fin A)
    (.fin D) (.fin S) (.fin R) v (by simp [hst])
  rw [envStep, h1, h2, h3]
  simp [Voice.envAdvance, hst]

theorem envStep_release_stay (sinf : Fv → Fv) (wave : WaveType)
    (srq A D S R l L : ℚ) (hsr : srq ≠ 0) (hR : R ≠ 0) (v : Voice)
    (hst : v.stage = .Release) (hl : v.level = .fin l)
    (hrl : v.release_level = .fin L)
    (hgt : ¬ l - 1 / srq * L / R ≤ 0) :
    (envStep sinf wave srq A D S R v).stage = .Release ∧
    (envStep sinf wave srq A D S R v).level = .fin (l - 1 / srq * L / R) ∧
    (envStep sinf wave srq A D S R v).release_level = .fin L := by
  obtain ⟨h1, h2, h3⟩ := Voice.step_fields sinf wave (.fin srq) (.fin A)
    (.fin D) (.fin S) (.fin R) v (by simp [hst])
  rw [envStep, h1, h2, h3]
  rw [one_div] at hgt
  simp [Voice.envAdvance, hst, hl, hrl, Fv.div_fin _ hsr, Fv.div_fin _ hR, hgt]

theorem envStep_release_done (sinf : Fv → Fv) (wave : WaveType)
    (srq A D S R l L : ℚ) (hsr : srq ≠ 0) (hR : R ≠ 0) (v : Voice)
    (hst : v.stage = .Release) (hl : v.level = .fin l)
    (hrl : v.release_level = .fin L)
    (hle : l - 1 / srq * L / R ≤ 0) :
    (envStep sinf wave srq A D S R v).stage = .Off ∧
    (envStep sinf wave srq A D S R v).level = .fin 0 := by
  obtain ⟨h1, h2, _⟩ := Voice.step_fields sinf wave (.fin srq) (.fin A)
    (.fin D) (.fin S) (.fin R) v (by simp [hst])
  rw [envStep, h1, h2]
  rw [one_div] at hle
  simp [Voice.envAdvance, hst, hl, hrl, Fv.div_fin _ hsr, Fv.div_fin _ hR, hle]

-- ── Envelope phase iteration lemmas (C1) ─────────────────────────────────────

theorem envStep_iterate_off (sinf : Fv → Fv) (wave : WaveType)
    (srq A D S R : ℚ) (v : Voice) (h : v.stage = .Off) (j : ℕ) :
    (envStep sinf wave srq A D S R)^[j] v = v :=
  Function.iterate_fixed (Voice.step_of_off sinf wave _ _ _ _ _ v h) j

theorem sustain_iterate (sinf : Fv → Fv) (wave : WaveType)
    (srq A D S R : ℚ) (v : Voice)
    (hst : v.stage = .Sustain) (hl : v.level = .fin S)
    (j : ℕ) :
    ((envStep sinf wave srq A D S R)^[j] v).stage = .Sustain ∧
    ((envStep sinf wave srq A D S R)^[j] v).level = .fin S ∧
    ((envStep sinf wave srq A D S R)^[j] v).release_level = v.release_level := by
  induction j with
  | zero => simp [hst, hl]
  | succ j ih =>
      obtain ⟨h1, h2, h3⟩ := ih
      rw [Function.iterate_succ_apply']
      obtain ⟨g1, g2, g3⟩ := envStep_sustain sinf wave srq A D S R _ h1
      exact ⟨g1, g2, g3.trans h3⟩

theorem attack_iterate (sinf : Fv → Fv) (wave : WaveType)
    (srq A D S R : ℚ) (hsr : 0 < srq) (hA : 0 < A) (v : Voice)
    (hst : v.stage = .Attack) (hl : v.level = .fin 0) :
    ∀ j : ℕ, (j : ℚ) < srq * A →
      ((envStep sinf wave srq A D S R)^[j] v).stage = .Attack ∧
      ((envStep sinf wave srq A D S R)^[j] v).level
        = .fin (j * (1 / srq / A)) ∧
      ((envStep sinf wave srq A D S R)^[j] v).release_level
        = v.release_level := by
  intro j
  induction j with
  | zero => intro _; simp [hst, hl]
  | succ j ih =>
      intro hj
      have hj' : (j : ℚ) < srq * A := by
        push_cast at hj ⊢
        linarith
      obtain ⟨h1, h2, h3⟩ := ih hj'
      rw [Function.iterate_succ_apply']
      have hsA : (0:ℚ) < srq * A := mul_pos hsr hA
      have heq : (j : ℚ) * (1 / srq / A) + 1 / srq / A
          = ((j : ℚ) + 1) / (srq * A) := by
        field_simp
      have hlt : ¬ 1 ≤ (j : ℚ) * (1 / srq / A) + 1 / srq / A := by
        rw [heq]
        push_neg
        rw [div_lt_one hsA]
        push_cast at hj ⊢
        linarith
      obtain ⟨g1, g2, g3⟩ := envStep_attack_stay sinf wave srq A D S R _
        hsr.ne' hA.ne' _ h1 h2 hlt
      refine ⟨g1, ?_, g3.trans h3⟩
      rw [g2]
      congr 1
      push_cast
      ring

theorem attack_reaches_decay (sinf : Fv → Fv) (wave : WaveType)
    (srq A D S R : ℚ) (hsr : 0 < srq) (hA : 0 < A) (v : Voice)
    (hst : v.stage = .Attack) (hl : v.level = .fin 0) :
    ((envStep sinf wave srq A D S R)^[⌈srq * A⌉₊] v).stage = .Decay ∧
    ((envStep sinf wave srq A D S R)^[⌈srq * A⌉₊] v).level = .fin 1 ∧
    ((envStep sinf wave srq A D S R)^[⌈srq * A⌉₊] v).release_level
      = v.release_level := by
  have hsA : (0:ℚ) < srq * A := mul_pos hsr hA
  have hk : 1 ≤ ⌈srq * A⌉₊ := Nat.ceil_pos.mpr hsA
  obtain ⟨h1, h2, h3⟩ := attack_iterate sinf wave srq A D S R hsr hA v hst hl
    (⌈srq * A⌉₊ - 1) (by
      have := Nat.lt_ceil.mp (Nat.sub_lt (by omega) (by omega) :
        ⌈srq * A⌉₊ - 1 < ⌈srq * A⌉₊)
      exact this)
  have hge : 1 ≤ ((⌈srq * A⌉₊ - 1 : ℕ) : ℚ) * (1 / srq / A) + 1 / srq / A := by
    have hceil : srq * A ≤ (⌈srq * A⌉₊ : ℚ) := Nat.le_ceil _
    have hcast : ((⌈srq * A⌉₊ - 1 : ℕ) : ℚ) = (⌈srq * A⌉₊ : ℚ) - 1 := by
      push_cast [hk]
      ring
    have hda : (0:ℚ) ≤ 1 / srq / A := by positivity
    have hone : srq * A * (1 / srq / A) = 1 := by
      field_simp
    rw [hcast]
    calc (1:ℚ) = srq * A * (1 / srq / A) := hone.symm
      _ ≤ (⌈srq * A⌉₊ : ℚ) * (1 / srq / A) :=
          mul_le_mul_of_nonneg_right hceil hda
      _ = ((⌈srq * A⌉₊ : ℚ) - 1) * (1 / srq / A) + 1 / srq / A := by ring
  have hsplit : ⌈srq * A⌉₊ = (⌈srq * A⌉₊ - 1) + 1 := by omega
  rw [hsplit, Function.iterate_succ_apply']
  obtain ⟨g1, g2, g3⟩ := envStep_attack_done sinf wave srq A D S R _
    hsr.ne' hA.ne' _ h1 h2 hge
  exact ⟨g1, g2, g3.trans h3⟩

theorem decay_iterate (sinf : Fv → Fv) (wave : WaveType)
    (srq A D S R : ℚ) (hsr : 0 < srq) (hD : 0 < D) (hS : S < 1) (v : Voice)
    (hst : v.stage = .Decay) (hl : v.level = .fin 1) :
    ∀ j : ℕ, (j : ℚ) < srq * D →
      ((envStep sinf wave srq A D S R)^[j] v).stage = .Decay ∧
      ((envStep sinf wave srq A D S R)^[j] v).level
        = .fin (1 - j * (1 / srq * (1 - S) / D)) ∧
      ((envStep sinf wave srq A D S R)^[j] v).release_level
        = v.release_level := by
  intro j
  induction j with
  | zero => intro _; simp [hst, hl]
  | succ j ih =>
      intro hj
      have hj' : (j : ℚ) < srq * D := by
        push_cast at hj ⊢
        linarith
      obtain ⟨h1, h2, h3⟩ := ih hj'
      rw [Function.iterate_succ_apply']
      have hsD : (0:ℚ) < srq * D := mul_pos hsr hD
      have hgt : ¬ (1 - (j : ℚ) * (1 / srq * (1 - S) / D))
          - 1 / srq * (1 - S) / D ≤ S := by
        push_neg
        have heq : (1 - (j : ℚ) * (1 / srq * (1 - S) / D))
            - 1 / srq * (1 - S) / D
            = 1 - (((j : ℚ) + 1) / (srq * D)) * (1 - S) := by
          field_simp
          ring
        rw [heq]
        have hfrac : ((j : ℚ) + 1) / (srq * D) < 1 := by
          rw [div_lt_one hsD]
          push_cast at hj ⊢
          linarith
        nlinarith [hfrac, hS]
      obtain ⟨g1, g2, g3⟩ := envStep_decay_stay sinf wave srq A D S R _
        hsr.ne' hD.ne' _ h1 h2 hgt
      refine ⟨g1, ?_, g3.trans h3⟩
      rw [g2]
      congr 1
      push_cast
      ring

theorem decay_reaches_sustain (sinf : Fv → Fv) (wave : WaveType)
    (srq A D S R : ℚ) (hsr : 0 < srq) (hD : 0 < D) (hS1 : S ≤ 1) (v : Voice)
    (hst : v.stage = .Decay) (hl : v.level = .fin 1) :
    ((envStep sinf wave srq A D S R)^[⌈srq * D⌉₊] v).stage = .Sustain ∧
    ((envStep sinf wave srq A D S R)^[⌈srq * D⌉₊] v).level = .fin S ∧
    ((envStep sinf wave srq A D S R)^[⌈srq * D⌉₊] v).release_level
      = v.release_level := by
  have hsD : (0:ℚ) < srq * D := mul_pos hsr hD
  have hk : 1 ≤ ⌈srq * D⌉₊ := Nat.ceil_pos.mpr hsD
  rcases eq_or_lt_of_le hS1 with hS | hS
  · -- S = 1: the decay decrement is 0 and the updated level 1 ≤ sustain,
    -- so the first step already moves to Sustain; Sustain then absorbs.
    have hle1 : (1:ℚ) - 1 / srq * (1 - S) / D ≤ S := by
      rw [hS]
      simp
    obtain ⟨g1, g2, g3⟩ := envStep_decay_done sinf wave srq A D S R 1
      hsr.ne' hD.ne' v hst hl hle1
    have hsplit : ⌈srq * D⌉₊ = (⌈srq * D⌉₊ - 1) + 1 := by omega
    rw [hsplit, Function.iterate_add_apply, Function.iterate_one]
    obtain ⟨s1, s2, s3⟩ := sustain_iterate sinf wave srq A D S R _ g1 g2
      (⌈srq * D⌉₊ - 1)
    exact ⟨s1, s2, s3.trans g3⟩
  · obtain ⟨h1, h2, h3⟩ := decay_iterate sinf wave srq A D S R hsr hD hS v
      hst hl (⌈srq * D⌉₊ - 1)
      (Nat.lt_ceil.mp (Nat.sub_lt (by omega) (by omega)))
    have hle : (1 - ((⌈srq * D⌉₊ - 1 : ℕ) : ℚ) * (1 / srq * (1 - S) / D))
        - 1 / srq * (1 - S) / D ≤ S := by
      have hceil : srq * D ≤ (⌈srq * D⌉₊ : ℚ) := Nat.le_ceil _
      have hcast : ((⌈srq * D⌉₊ - 1 : ℕ) : ℚ) = (⌈srq * D⌉₊ : ℚ) - 1 := by
        push_cast [hk]
        ring
      have hone : srq * D * (1 / srq * (1 - S) / D) = 1 - S := by
        field_simp
      have hds : (0:ℚ) ≤ 1 / srq * (1 - S) / D := by
        have : (0:ℚ) ≤ 1 - S := by linarith
        positivity
      have hstep : 1 - S ≤ (⌈srq * D⌉₊ : ℚ) * (1 / srq * (1 - S) / D) := by
        calc 1 - S = srq * D * (1 / srq * (1 - S) / D) := hone.symm
          _ ≤ (⌈srq * D⌉₊ : ℚ) * (1 / srq * (1 - S) / D) :=
              mul_le_mul_of_nonneg_right hceil hds
      rw [hcast]
      nlinarith [hstep]
    have hsplit : ⌈srq * D⌉₊ = (⌈srq * D⌉₊ - 1) + 1 := by omega
    rw [hsplit, Function.iterate_succ_apply']
    obtain ⟨g1, g2, g3⟩ := envStep_decay_done sinf wave srq A D S R _
      hsr.ne' hD.ne' _ h1 h2 hle
    exact ⟨g1, g2, g3.trans h3⟩

theorem release_iterate (sinf : Fv → Fv) (wave : WaveType)
    (srq A D S R L : ℚ) (hsr : 0 < srq) (hR : 0 < R) (hL : 0 < L) (v : Voice)
    (hst : v.stage = .Release) (hl : v.level = .fin L)
    (hrl : v.release_level = .fin L) :
    ∀ j : ℕ, (j : ℚ) < srq * R →
      ((envStep sinf wave srq A D S R)^[j] v).stage = .Release ∧
      ((envStep sinf wave srq A D S R)^[j] v).level
        = .fin (L - j * (1 / srq * L / R)) ∧
      ((envStep sinf wave srq A D S R)^[j] v).release_level = .fin L := by
  intro j
  induction j with
  | zero => intro _; simp [hst, hl, hrl]
  | succ j ih =>
      intro hj
      have hj' : (j : ℚ) < srq * R := by
        push_cast at hj ⊢
        linarith
      obtain ⟨h1, h2, h3⟩ := ih hj'
      rw [Function.iterate_succ_apply']
      have hsR : (0:ℚ) < srq * R := mul_pos hsr hR
      have hgt : ¬ (L - (j : ℚ) * (1 / srq * L / R)) - 1 / srq * L / R ≤ 0 := by
        push_neg
        have heq : (L - (j : ℚ) * (1 / srq * L / R)) - 1 / srq * L / R
            = L * ((srq * R - ((j : ℚ) + 1)) / (srq * R)) := by
          field_simp
          ring
        rw [heq]
        apply mul_pos hL
        apply div_pos _ hsR
        push_cast at hj ⊢
        linarith
      obtain ⟨g1, g2, g3⟩ := envStep_release_stay sinf wave srq A D S R _ L
        hsr.ne' hR.ne' _ h1 h2 h3 hgt
      refine ⟨g1, ?_, g3⟩
      rw [g2]
      congr 1
      push_cast
      ring

theorem release_reaches_off (sinf : Fv → Fv) (wave : WaveType)
    (srq A D S R L : ℚ) (hsr : 0 < srq) (hR : 0 < R) (hL : 0 ≤ L) (v : Voice)
    (hst : v.stage = .Release) (hl : v.level = .fin L)
    (hrl : v.release_level = .fin L) :
    ((envStep sinf wave srq A D S R)^[⌈srq * R⌉₊] v).stage = .Off ∧
    ((envStep sinf wave srq A D S R)^[⌈srq * R⌉₊] v).level = .fin 0 := by
  have hsR : (0:ℚ) < srq * R := mul_pos hsr hR
  have hk : 1 ≤ ⌈srq * R⌉₊ := Nat.ceil_pos.mpr hsR
  rcases eq_or_lt_of_le hL with hL0 | hLpos
  · -- released at level exactly 0: the first step hits 0 - 0 ≤ 0 and
    -- jumps to Off, which is absorbing.
    obtain ⟨g1, g2⟩ := envStep_release_done sinf wave srq A D S R L L
      hsr.ne' hR.ne' v hst hl hrl (by rw [← hL0]; simp)
    have hsplit : ⌈srq * R⌉₊ = (⌈srq * R⌉₊ - 1) + 1 := by omega
    rw [hsplit, Function.iterate_add_apply, Function.iterate_one]
    rw [envStep_iterate_off sinf wave srq A D S R _ g1 (⌈srq * R⌉₊ - 1)]
    exact ⟨g1, g2⟩
  · obtain ⟨h1, h2, h3⟩ := release_iterate sinf wave srq A D S R L hsr hR
      hLpos v hst hl hrl (⌈srq * R⌉₊ - 1)
      (Nat.lt_ceil.mp (Nat.sub_lt (by omega) (by omega)))
    have hle : (L - ((⌈srq * R⌉₊ - 1 : ℕ) : ℚ) * (1 / srq * L / R))
        - 1 / srq * L / R ≤ 0 := by
      have hceil : srq * R ≤ (⌈srq * R⌉₊ : ℚ) := Nat.le_ceil _
      have hcast : ((⌈srq * R⌉₊ - 1 : ℕ) : ℚ) = (⌈srq * R⌉₊ : ℚ) - 1 := by
        push_cast [hk]
        ring
      have hone : srq * R * (1 / srq * L / R) = L := by
        field_simp
      have hds : (0:ℚ) ≤ 1 / srq * L / R := by positivity
      have hstep : L ≤ (⌈srq * R⌉₊ : ℚ) * (1 / srq * L / R) := by
        calc L = srq * R * (1 / srq * L / R) := hone.symm
          _ ≤ (⌈srq * R⌉₊ : ℚ) * (1 / srq * L / R) :=
              mul_le_mul_of_nonneg_right hceil hds
      rw [hcast]
      nlinarith [hstep]
    have hsplit : ⌈srq * R⌉₊ = (⌈srq * R⌉₊ - 1) + 1 := by omega
    rw [hsplit, Function.iterate_succ_apply']
    exact envStep_release_done sinf wave srq A D S R _ L
      hsr.ne' hR.ne' _ h1 h2 h3 hle

-- ── C1: the note_on/note_off voice lifecycle ─────────────────────────────────

/-- C1: for every note n, `note_on(n)` installs a fresh voice in Attack; the
envelope then passes through Decay (at `⌈sr·attack⌉` samples) into Sustain;
once the note has been held `m ≥ ⌈sr·attack⌉ + ⌈sr·decay⌉` samples,
`note_off(n)` (`Voice::release`) puts it into Release at the snapshot level,
and after exactly `⌈sr·release⌉` further samples — within `release` seconds
plus at most one sample — the stage is Off with the level exactly 0, whereupon
the voice pass of `generate_sample` removes the note from the bank. -/
theorem c1_note_lifecycle (pow2 sinf : Fv → Fv) (wave : WaveType)
    (srq A D S R : ℚ) (n m : ℕ)
    (hsr : 0 < srq) (hA : 0 < A) (hD : 0 < D) (hS0 : 0 ≤ S) (hS1 : S ≤ 1)
    (hR : 0 < R) (hm : ⌈srq * A⌉₊ + ⌈srq * D⌉₊ ≤ m) :
    VoiceBank.note_on pow2 [] n = [(n, Voice.new pow2 n)] ∧
    ((envStep sinf wave srq A D S R)^[⌈srq * A⌉₊] (Voice.new pow2 n)).stage
      = .Decay ∧
    ((envStep sinf wave srq A D S R)^[m] (Voice.new pow2 n)).stage
      = .Sustain ∧
    ((envStep sinf wave srq A D S R)^[m] (Voice.new pow2 n)).level = .fin S ∧
    VoiceBank.note_off
        [(n, (envStep sinf wave srq A D S R)^[m] (Voice.new pow2 n))] n
      = [(n,
          ((envStep sinf wave srq A D S R)^[m] (Voice.new pow2 n)).release)] ∧
    (((envStep sinf wave srq A D S R)^[m] (Voice.new pow2 n)).release).stage
      = .Release ∧
    ((envStep sinf wave srq A D S R)^[⌈srq * R⌉₊]
        (((envStep sinf wave srq A D S R)^[m]
          (Voice.new pow2 n)).release)).stage = .Off ∧
    ((envStep sinf wave srq A D S R)^[⌈srq * R⌉₊]
        (((envStep sinf wave srq A D S R)^[m]
          (Voice.new pow2 n)).release)).level = .fin 0 ∧
    ((⌈srq * R⌉₊ : ℚ) < srq * R + 1) ∧
    (VoiceBank.render sinf wave (.fin srq) (.fin A) (.fin D) (.fin S) (.fin R)
        [(n, (envStep sinf wave srq A D S R)^[⌈srq * R⌉₊]
          (((envStep sinf wave srq A D S R)^[m]
            (Voice.new pow2 n)).release))]).1 = [] := by
  have hnew_st : (Voice.new pow2 n).stage = .Attack := rfl
  have hnew_lv : (Voice.new pow2 n).level = .fin 0 := rfl
  have hnew_rl : (Voice.new pow2 n).release_level = .fin 0 := rfl
  obtain ⟨hd1, hd2, hd3⟩ := attack_reaches_decay sinf wave srq A D S R hsr hA
    (Voice.new pow2 n) hnew_st hnew_lv
  obtain ⟨hs1, hs2, hs3⟩ := decay_reaches_sustain sinf wave srq A D S R hsr hD
    hS1 _ hd1 hd2
  have hms : m = (m - (⌈srq * A⌉₊ + ⌈srq * D⌉₊))
      + (⌈srq * D⌉₊ + ⌈srq * A⌉₊) := by omega
  have hheld : ((envStep sinf wave srq A D S R)^[m]
        (Voice.new pow2 n)).stage = .Sustain ∧
      ((envStep sinf wave srq A D S R)^[m] (Voice.new pow2 n)).level
        = .fin S := by
    rw [hms, Function.iterate_add_apply, Function.iterate_add_apply]
    obtain ⟨su1, su2, _⟩ := sustain_iterate sinf wave srq A D S R _ hs1 hs2
      (m - (⌈srq * A⌉₊ + ⌈srq * D⌉₊))
    exact ⟨su1, su2⟩
  have hrel : (((envStep sinf wave srq A D S R)^[m]
        (Voice.new pow2 n)).release).stage = .Release ∧
      (((envStep sinf wave srq A D S R)^[m]
        (Voice.new pow2 n)).release).level = .fin S ∧
      (((envStep sinf wave srq A D S R)^[m]
        (Voice.new pow2 n)).release).release_level = .fin S := by
    unfold Voice.release
    rw [hheld.1]
    simp [hheld.2]
  obtain ⟨ho1, ho2⟩ := release_reaches_off sinf wave srq A D S R S hsr hR hS0
    _ hrel.1 hrel.2.1 hrel.2.2
  refine ⟨rfl, hd1, hheld.1, hheld.2, ?_, hrel.1, ho1, ho2, ?_, ?_⟩
  · simp [VoiceBank.note_off]
  · exact Nat.ceil_lt_add_one (by positivity)
  · simp [VoiceBank.render, Voice.next_sample, ho1, Voice.is_finished]

/-- C1, witness: the lifecycle at sample rate 10, attack = decay = release =
0.1 s, sustain 0.5, note 60, held for 2 samples (= ⌈1⌉ + ⌈1⌉). -/
theorem c1_note_lifecycle_witness :
    (0:ℚ) < 10 ∧ (0:ℚ) < 1/10 ∧ (0:ℚ) ≤ 1/2 ∧ (1/2:ℚ) ≤ 1 ∧
    ⌈(10:ℚ) * (1/10)⌉₊ + ⌈(10:ℚ) * (1/10)⌉₊ ≤ 2 ∧
    (VoiceBank.note_on (fun _ => Fv.fin 1) [] 60
      = [(60, Voice.new (fun _ => Fv.fin 1) 60)] ∧
    ((envStep (fun _ => Fv.fin 0) .Sine 10 (1/10) (1/10) (1/2) (1/10)
        )^[⌈(10:ℚ) * (1/10)⌉₊] (Voice.new (fun _ => Fv.fin 1) 60)).stage
      = .Decay ∧
    ((envStep (fun _ => Fv.fin 0) .Sine 10 (1/10) (1/10) (1/2) (1/10))^[2]
        (Voice.new (fun _ => Fv.fin 1) 60)).stage = .Sustain ∧
    ((envStep (fun _ => Fv.fin 0) .Sine 10 (1/10) (1/10) (1/2) (1/10))^[2]
        (Voice.new (fun _ => Fv.fin 1) 60)).level = .fin (1/2) ∧
    VoiceBank.note_off
        [(60, (envStep (fun _ => Fv.fin 0) .Sine 10 (1/10) (1/10) (1/2)
          (1/10))^[2] (Voice.new (fun _ => Fv.fin 1) 60))] 60
      = [(60, ((envStep (fun _ => Fv.fin 0) .Sine 10 (1/10) (1/10) (1/2)
          (1/10))^[2] (Voice.new (fun _ => Fv.fin 1) 60)).release)] ∧
    (((envStep (fun _ => Fv.fin 0) .Sine 10 (1/10) (1/10) (1/2) (1/10))^[2]
        (Voice.new (fun _ => Fv.fin 1) 60)).release).stage = .Release ∧
    ((envStep (fun _ => Fv.fin 0) .Sine 10 (1/10) (1/10) (1/2)
        (1/10))^[⌈(10:ℚ) * (1/10)⌉₊]
        (((envStep (fun _ => Fv.fin 0) .Sine 10 (1/10) (1/10) (1/2)
          (1/10))^[2] (Voice.new (fun _ => Fv.fin 1) 60)).release)).stage
      = .Off ∧
    ((envStep (fun _ => Fv.fin 0) .Sine 10 (1/10) (1/10) (1/2)
        (1/10))^[⌈(10:ℚ) * (1/10)⌉₊]
        (((envStep (fun _ => Fv.fin 0) .Sine 10 (1/10) (1/10) (1/2)
          (1/10))^[2] (Voice.new (fun _ => Fv.fin 1) 60)).release)).level
      = .fin 0 ∧
    ((⌈(10:ℚ) * (1/10)⌉₊ : ℚ) < 10 * (1/10) + 1) ∧
    (VoiceBank.render (fun _ => Fv.fin 0) .Sine (.fin 10) (.fin (1/10))
        (.fin (1/10)) (.fin (1/2)) (.fin (1/10))
        [(60, (envStep (fun _ => Fv.fin 0) .Sine 10 (1/10) (1/10) (1/2)
          (1/10))^[⌈(10:ℚ) * (1/10)⌉₊]
          (((envStep (fun _ => Fv.fin 0) .Sine 10 (1/10) (1/10) (1/2)
            (1/10))^[2] (Voice.new (fun _ => Fv.fin 1) 60)).release))]).1
      = []) :=
  ⟨by norm_num, by norm_num, by norm_num, by norm_num,
    by norm_num,
    c1_note_lifecycle (fun _ => Fv.fin 1) (fun _ => Fv.fin 0) .Sine
      10 (1/10) (1/10) (1/2) (1/10) 60 2
      (by norm_num) (by norm_num) (by norm_num) (by norm_num) (by norm_num)
      (by norm_num) (by norm_num)⟩

-- ── C5: zero envelope durations ──────────────────────────────────────────────

/-- C5, counterexample.  `Voice::next_sample` has no explicit guard for
zero durations; it relies on IEEE-754 semantics.  In the 0/0 corner the claim
fails: with `decay = 0` and `sustain_level = 1` (which is inside the claimed
`[0, 1]` range) the decrement is `dt * (1 - 1) / 0 = 0/0 = NaN`, the updated
level is NaN, the `level <= sustain` comparison is false, and the voice stays
in Decay (with a NaN level) instead of jumping to Sustain. -/
theorem c5_counterexample :
    (vDecayFull.step (fun _ => Fv.fin 0) .Sine (.fin 44100) (.fin (1/100))
        (.fin 0) (.fin 1) (.fin (3/10))).stage = .Decay ∧
    (vDecayFull.step (fun _ => Fv.fin 0) .Sine (.fin 44100) (.fin (1/100))
        (.fin 0) (.fin 1) (.fin (3/10))).stage ≠ EnvelopeStage.Sustain ∧
    (vDecayFull.step (fun _ => Fv.fin 0) .Sine (.fin 44100) (.fin (1/100))
        (.fin 0) (.fin 1) (.fin (3/10))).level = Fv.nan := by
  have h : vDecayFull.stage = .Decay := rfl
  obtain ⟨h1, h2, _⟩ := Voice.step_fields (fun _ => Fv.fin 0) .Sine
    (.fin 44100) (.fin (1/100)) (.fin 0) (.fin 1) (.fin (3/10)) vDecayFull
    (by simp [h])
  have hdt : (Fv.fin 1).div (Fv.fin 44100) = Fv.fin (1/44100) :=
    Fv.div_fin _ (by norm_num)
  have key : (vDecayFull.envAdvance (.fin 44100) (.fin (1/100)) (.fin 0)
        (.fin 1) (.fin (3/10))).stage = .Decay ∧
      (vDecayFull.envAdvance (.fin 44100) (.fin (1/100)) (.fin 0)
        (.fin 1) (.fin (3/10))).level = Fv.nan := by
    simp [Voice.envAdvance, h, vDecayFull, hdt, Fv.div_zero_zero]
  refine ⟨?_, ?_, ?_⟩
  · rw [h1]
    exact key.1
  · rw [h1, key.1]
    decide
  · rw [h2]
    exact key.2

/-- C5, amended: with a zero duration, `Voice::next_sample`'s division by the
positive zero produces a signed infinity whenever its numerator is non-zero,
and then the voice does make the claimed one-sample jump: Attack with
`attack = 0` always jumps to Decay at level 1; Decay with `decay = 0` jumps
to Sustain at the sustain level provided `sustain_level < 1`; Release with
`release = 0` jumps to Off at level 0 provided the captured release level is
positive.  (In the excluded corners — `sustain_level = 1`, resp. a zero
release level — the update is `0/0 = NaN` and the stage never advances, as
the counterexample shows.) -/
theorem c5_zero_duration_jumps (sinf : Fv → Fv) (wave : WaveType)
    (srq S : ℚ) (a d s r : Fv) (hsr : 0 < srq) :
    (∀ (v : Voice) (l : ℚ), v.stage = .Attack → v.level = .fin l →
      (v.step sinf wave (.fin srq) (.fin 0) d s r).stage = .Decay ∧
      (v.step sinf wave (.fin srq) (.fin 0) d s r).level = .fin 1) ∧
    (S < 1 → ∀ (v : Voice) (l : ℚ), v.stage = .Decay → v.level = .fin l →
      (v.step sinf wave (.fin srq) a (.fin 0) (.fin S) r).stage = .Sustain ∧
      (v.step sinf wave (.fin srq) a (.fin 0) (.fin S) r).level = .fin S) ∧
    (∀ (v : Voice) (l L : ℚ), 0 < L → v.stage = .Release →
      v.level = .fin l → v.release_level = .fin L →
      (v.step sinf wave (.fin srq) a d s (.fin 0)).stage = .Off ∧
      (v.step sinf wave (.fin srq) a d s (.fin 0)).level = .fin 0) := by
  have hdt : (Fv.fin 1).div (Fv.fin srq) = Fv.fin (1/srq) :=
    Fv.div_fin _ hsr.ne'
  refine ⟨?_, ?_, ?_⟩
  · intro v l hst hl
    obtain ⟨h1, h2, _⟩ := Voice.step_fields sinf wave (.fin srq) (.fin 0)
      d s r v (by simp [hst])
    rw [h1, h2]
    have hinf : (Fv.fin (srq⁻¹)).div (Fv.fin 0) = Fv.pinf :=
      Fv.div_fin_zero_pos (by positivity)
    simp [Voice.envAdvance, hst, hl, hdt, hinf]
  · intro hS v l hst hl
    obtain ⟨h1, h2, _⟩ := Voice.step_fields sinf wave (.fin srq) a
      (.fin 0) (.fin S) r v (by simp [hst])
    rw [h1, h2]
    have hinf : (Fv.fin (srq⁻¹ * (1 - S))).div (Fv.fin 0) = Fv.pinf :=
      Fv.div_fin_zero_pos (by
        have hpos : (0:ℚ) < 1 - S := by linarith
        positivity)
    simp [Voice.envAdvance, hst, hl, hdt, hinf]
  · intro v l L hL hst hl hrl
    obtain ⟨h1, h2, _⟩ := Voice.step_fields sinf wave (.fin srq) a d s
      (.fin 0) v (by simp [hst])
    rw [h1, h2]
    have hinf : (Fv.fin (srq⁻¹ * L)).div (Fv.fin 0) = Fv.pinf :=
      Fv.div_fin_zero_pos (by positivity)
    simp [Voice.envAdvance, hst, hl, hrl, hdt, hinf]

/-- C5, witness: the three zero-duration jumps evaluated at sample rate 2,
sustain 1/2, on voices in Attack (level 1/4), Decay (level 1) and Release
(level and release level 1/2). -/
theorem c5_zero_duration_jumps_witness :
    (0:ℚ) < 2 ∧ (1/2:ℚ) < 1 ∧ (0:ℚ) < 1/2 ∧
    ((({ frequency := .fin 440, phase := .fin 0, stage := .Attack,
          level := .fin (1/4), release_level := .fin 0 } : Voice).step
        (fun _ => Fv.fin 0) .Sine (.fin 2) (.fin 0) (.fin 1) (.fin (1/2))
        (.fin 1)).stage = .Decay ∧
     (({ frequency := .fin 440, phase := .fin 0, stage := .Attack,
          level := .fin (1/4), release_level := .fin 0 } : Voice).step
        (fun _ => Fv.fin 0) .Sine (.fin 2) (.fin 0) (.fin 1) (.fin (1/2))
        (.fin 1)).level = .fin 1) ∧
    ((({ frequency := .fin 440, phase := .fin 0, stage := .Decay,
          level := .fin 1, release_level := .fin 0 } : Voice).step
        (fun _ => Fv.fin 0) .Sine (.fin 2) (.fin 1) (.fin 0) (.fin (1/2))
        (.fin 1)).stage = .Sustain ∧
     (({ frequency := .fin 440, phase := .fin 0, stage := .Decay,
          level := .fin 1, release_level := .fin 0 } : Voice).step
        (fun _ => Fv.fin 0) .Sine (.fin 2) (.fin 1) (.fin 0) (.fin (1/2))
        (.fin 1)).level = .fin (1/2)) ∧
    ((({ frequency := .fin 440, phase := .fin 0, stage := .Release,
          level := .fin (1/2), release_level := .fin (1/2) } : Voice).step
        (fun _ => Fv.fin 0) .Sine (.fin 2) (.fin 1) (.fin 1) (.fin (1/2))
        (.fin 0)).stage = .Off ∧
     (({ frequency := .fin 440, phase := .fin 0, stage := .Release,
          level := .fin (1/2), release_level := .fin (1/2) } : Voice).step
        (fun _ => Fv.fin 0) .Sine (.fin 2) (.fin 1) (.fin 1) (.fin (1/2))
        (.fin 0)).level = .fin 0) := by
  have h := c5_zero_duration_jumps (fun _ => Fv.fin 0) .Sine 2 (1/2)
    (Fv.fin 1) (Fv.fin 1) (Fv.fin (1/2)) (Fv.fin 1) (by norm_num)
  exact ⟨by norm_num, by norm_num, by norm_num,
    h.1 _ (1/4) rfl rfl,
    h.2.1 (by norm_num) _ 1 rfl rfl,
    h.2.2 _ (1/2) (1/2) (by norm_num) rfl rfl rfl⟩

end Daw
